import Mathlib

/-!
Verification of the Reeke index generator and the reflection predictors of
the dials spot-prediction core (source files
algorithms/spot_prediction/reeke_index_generator.h and
algorithms/spot_prediction/reflection_predictor.h).

Modelling conventions:
* C++ double-precision quantities are modelled as real numbers.
* A C-style cast from double to int is modelled by truncation toward zero.
* std::sort on four integers is modelled by an explicit sorting network
  (any correct sort realises the std::sort contract).
* The switch-based coroutine ReekeIndexGenerator::next_pqr, whose cursors
  are static local variables shared by every instance, is modelled as a
  step function on an explicit cursor-state record; the record plays the
  role of the single shared static block.
* The quantities that the ReekeModel member functions read from fields
  (the 21 precomputed scalars cp, d*max^2, the margin) are passed as
  explicit arguments.
-/

namespace Dials

noncomputable section
open scoped Classical

/-- A 3-vector of doubles, modelled as a triple of reals. -/
abbrev Vec3 : Type := ℝ × ℝ × ℝ

/-- Dot product of two 3-vectors (scitbx vec3 operator *). -/
def dot3 (u v : Vec3) : ℝ := u.1 * v.1 + u.2.1 * v.2.1 + u.2.2 * v.2.2

/-- The effect of a C-style cast from double to int: truncation toward zero. -/
def itrunc (x : ℝ) : ℤ := if 0 ≤ x then ⌊x⌋ else ⌈x⌉

/-- Minimum of a list of doubles (af::min of a nonempty af::small). -/
def listMin : List ℝ → ℝ
  | [] => 0
  | x :: xs => xs.foldl min x

/-- Maximum of a list of doubles (af::max of a nonempty af::small). -/
def listMax : List ℝ → ℝ
  | [] => 0
  | x :: xs => xs.foldl max x

/-- Modelled from the spec: the quadratic solver reeke_detail::solve_quad
lives in scan_varying_helpers.h, which is not among the provided sources.
Spec 4.1: it returns 0, 1 or 2 real roots of a*x^2 + b*x + c = 0 in
ascending order; for a = 0 it returns the single root -c/b (none if b = 0);
a negative discriminant gives no roots and a zero discriminant one root. -/
def solve_quad (a b c : ℝ) : List ℝ :=
  if a = 0 then
    if b = 0 then [] else [-c / b]
  else
    if b * b - 4 * a * c < 0 then []
    else if b * b - 4 * a * c = 0 then [-b / (2 * a)]
    else
      if (-b - Real.sqrt (b * b - 4 * a * c)) / (2 * a) ≤
          (-b + Real.sqrt (b * b - 4 * a * c)) / (2 * a) then
        [(-b - Real.sqrt (b * b - 4 * a * c)) / (2 * a),
         (-b + Real.sqrt (b * b - 4 * a * c)) / (2 * a)]
      else
        [(-b + Real.sqrt (b * b - 4 * a * c)) / (2 * a),
         (-b - Real.sqrt (b * b - 4 * a * c)) / (2 * a)]

/-- For a genuine quadratic, solve_quad returns the empty list exactly when
the quadratic has no real root. -/
theorem solve_quad_eq_nil_iff {a b c : ℝ} (ha : a ≠ 0) :
    solve_quad a b c = [] ↔ ∀ x : ℝ, a * (x * x) + b * x + c ≠ 0 := by
  unfold solve_quad
  rw [if_neg ha]
  by_cases hd : b * b - 4 * a * c < 0
  · rw [if_pos hd]
    simp only [true_iff]
    intro x
    refine quadratic_ne_zero_of_discrim_ne_sq (fun s => ?_) x
    have hs : (0:ℝ) ≤ s ^ 2 := sq_nonneg s
    have : discrim a b c < 0 := by rw [discrim]; nlinarith
    exact ne_of_lt (lt_of_lt_of_le this hs)
  · rw [if_neg hd]
    have hroot : ∃ x : ℝ, a * (x * x) + b * x + c = 0 := by
      refine exists_quadratic_eq_zero ha ⟨Real.sqrt (b * b - 4 * a * c), ?_⟩
      rw [discrim, Real.mul_self_sqrt (not_lt.mp hd)]
      ring
    by_cases h0 : b * b - 4 * a * c = 0
    · rw [if_pos h0]
      simp only [List.cons_ne_nil, false_iff, not_forall, not_not]
      exact hroot
    · rw [if_neg h0]
      obtain ⟨x, hx⟩ := hroot
      split_ifs <;>
        · simp only [List.cons_ne_nil, false_iff, not_forall, not_not]
          exact ⟨x, hx⟩

/-- Sorting four integers (std::sort over an af::tiny of four ints),
realised by a five-comparator sorting network. -/
def sort4 (a b c d : ℤ) : ℤ × ℤ × ℤ × ℤ :=
  let a1 := min a b
  let b1 := max a b
  let c1 := min c d
  let d1 := max c d
  let a2 := min a1 c1
  let c2 := max a1 c1
  let b2 := min b1 d1
  let d2 := max b1 d1
  (a2, min c2 b2, max c2 b2, d2)

theorem sort4_sorted (a b c d : ℤ) :
    (sort4 a b c d).1 ≤ (sort4 a b c d).2.1 ∧
    (sort4 a b c d).2.1 ≤ (sort4 a b c d).2.2.1 ∧
    (sort4 a b c d).2.2.1 ≤ (sort4 a b c d).2.2.2 := by
  simp only [sort4]
  omega

/-- The middle two entries of the sorted four values, given two already
sorted pairs whose intervals overlap, are the intersection endpoints. -/
theorem sort4_mid_of_overlap {a b c d : ℤ} (h1 : a ≤ b) (h2 : c ≤ d)
    (h3 : max a c ≤ min b d) :
    (sort4 a b c d).2.1 = max a c ∧ (sort4 a b c d).2.2.1 = min b d := by
  simp only [sort4]
  omega

theorem itrunc_mono {x y : ℝ} (h : x ≤ y) : itrunc x ≤ itrunc y := by
  unfold itrunc
  split_ifs with hx hy hy
  · exact Int.floor_le_floor h
  · exact absurd (hx.trans h) hy
  · exact le_trans (Int.ceil_le.mpr (by simpa using le_of_not_le hx))
      (Int.floor_nonneg.mpr hy)
  · exact Int.ceil_le_ceil h

theorem foldl_min_le_init : ∀ (xs : List ℝ) (x : ℝ), xs.foldl min x ≤ x
  | [], _ => le_refl _
  | y :: ys, x => le_trans (foldl_min_le_init ys (min x y)) (min_le_left x y)

theorem init_le_foldl_max : ∀ (xs : List ℝ) (x : ℝ), x ≤ xs.foldl max x
  | [], _ => le_refl _
  | y :: ys, x => le_trans (le_max_left x y) (init_le_foldl_max ys (max x y))

theorem listMin_le_listMax : ∀ l : List ℝ, listMin l ≤ listMax l
  | [] => le_refl 0
  | x :: xs => le_trans (foldl_min_le_init xs x) (init_le_foldl_max xs x)

/-! ## The q limits of the ReekeModel -/

/-- ReekeModel::resolution_q_limits. The fields cp_, dstarmax2_ and margin_
read by the member function are passed as arguments. -/
def resolution_q_limits (cp : Fin 21 → ℝ) (dstarmax2 : ℝ) (margin : ℤ)
    (p : ℤ) : Option (ℤ × ℤ) :=
  let limits := solve_quad (cp 9) (2 * (p : ℝ) * cp 8)
    ((p : ℝ) * (p : ℝ) * cp 5 + cp 0 * dstarmax2)
  if limits = [] then none
  else some (itrunc (listMin limits) - margin, itrunc (listMax limits) + margin)

/-- ReekeModel::ewald_sphere_q_limits. -/
def ewald_sphere_q_limits (cp : Fin 21 → ℝ) (margin : ℤ) (p : ℤ) :
    Option (ℤ × ℤ) :=
  let limits_beg := solve_quad (cp 9) (2 * (cp 6 + (p : ℝ) * cp 8))
    (cp 1 + (p : ℝ) * (2 * cp 3 + (p : ℝ) * cp 5))
  let limits_end := solve_quad (cp 9) (2 * (cp 7 + (p : ℝ) * cp 8))
    (cp 2 + (p : ℝ) * (2 * cp 4 + (p : ℝ) * cp 5))
  let limits := limits_beg ++ limits_end
  if limits = [] then none
  else some (itrunc (listMin limits) - margin, itrunc (listMax limits) + margin)

/-- ReekeModel::q_limits: most restrictive of the Ewald and resolution
limits, via the middle pair of the four sorted endpoints. -/
def q_limits (cp : Fin 21 → ℝ) (dstarmax2 : ℝ) (margin : ℤ) (p : ℤ) : ℤ × ℤ :=
  match resolution_q_limits cp dstarmax2 margin p,
        ewald_sphere_q_limits cp margin p with
  | some res, some ew =>
      let s := sort4 ew.1 ew.2 res.1 res.2
      (s.2.1, s.2.2.1 + 1)
  | _, _ => (0, 0)

/-- Claim C4, read from the specification wording: q_limits returns (0,0)
when either the resolution quadratic has no real roots or both Ewald
quadratics (begin and end settings) have no real roots; otherwise it
returns the middle pair of the four sorted endpoints, the endpoints being
the margin-widened union extent of the Ewald roots and the margin-widened
resolution extent, as the closed-open interval (limits[1], limits[2]+1). -/
def q_limits_spec (cp : Fin 21 → ℝ) (dstarmax2 : ℝ) (margin : ℤ) (p : ℤ) :
    ℤ × ℤ :=
  if (∀ x : ℝ, cp 9 * (x * x) + 2 * (p : ℝ) * cp 8 * x +
        ((p : ℝ) * (p : ℝ) * cp 5 + cp 0 * dstarmax2) ≠ 0) ∨
     ((∀ x : ℝ, cp 9 * (x * x) + 2 * (cp 6 + (p : ℝ) * cp 8) * x +
        (cp 1 + (p : ℝ) * (2 * cp 3 + (p : ℝ) * cp 5)) ≠ 0) ∧
      (∀ x : ℝ, cp 9 * (x * x) + 2 * (cp 7 + (p : ℝ) * cp 8) * x +
        (cp 2 + (p : ℝ) * (2 * cp 4 + (p : ℝ) * cp 5)) ≠ 0)) then
    (0, 0)
  else
    let eroots := solve_quad (cp 9) (2 * (cp 6 + (p : ℝ) * cp 8))
        (cp 1 + (p : ℝ) * (2 * cp 3 + (p : ℝ) * cp 5)) ++
      solve_quad (cp 9) (2 * (cp 7 + (p : ℝ) * cp 8))
        (cp 2 + (p : ℝ) * (2 * cp 4 + (p : ℝ) * cp 5))
    let rroots := solve_quad (cp 9) (2 * (p : ℝ) * cp 8)
        ((p : ℝ) * (p : ℝ) * cp 5 + cp 0 * dstarmax2)
    let s := sort4 (itrunc (listMin eroots) - margin)
      (itrunc (listMax eroots) + margin)
      (itrunc (listMin rroots) - margin)
      (itrunc (listMax rroots) + margin)
    (s.2.1, s.2.2.1 + 1)

theorem resolution_q_limits_sorted {cp : Fin 21 → ℝ} {dstarmax2 : ℝ}
    {margin : ℤ} {p : ℤ} {r : ℤ × ℤ} (hm : 0 ≤ margin)
    (h : resolution_q_limits cp dstarmax2 margin p = some r) : r.1 ≤ r.2 := by
  simp only [resolution_q_limits] at h
  split_ifs at h with h0
  simp only [Option.some_inj] at h
  subst h
  have := itrunc_mono (listMin_le_listMax
    (solve_quad (cp 9) (2 * (p : ℝ) * cp 8)
      ((p : ℝ) * (p : ℝ) * cp 5 + cp 0 * dstarmax2)))
  simp only
  omega

theorem ewald_sphere_q_limits_sorted {cp : Fin 21 → ℝ} {margin : ℤ} {p : ℤ}
    {e : ℤ × ℤ} (hm : 0 ≤ margin)
    (h : ewald_sphere_q_limits cp margin p = some e) : e.1 ≤ e.2 := by
  simp only [ewald_sphere_q_limits] at h
  split_ifs at h with h0
  simp only [Option.some_inj] at h
  subst h
  have := itrunc_mono (listMin_le_listMax
    (solve_quad (cp 9) (2 * (cp 6 + (p : ℝ) * cp 8))
        (cp 1 + (p : ℝ) * (2 * cp 3 + (p : ℝ) * cp 5)) ++
      solve_quad (cp 9) (2 * (cp 7 + (p : ℝ) * cp 8))
        (cp 2 + (p : ℝ) * (2 * cp 4 + (p : ℝ) * cp 5))))
  simp only
  omega

/-- Claim C4: q_limits agrees with the specification wording, and in the
case where both root sets exist and their widened extents overlap, the
returned interval is exactly the intersection of the two extents. -/
theorem q_limits_characterisation (cp : Fin 21 → ℝ) (dstarmax2 : ℝ)
    (margin : ℤ) (p : ℤ) (hm : 0 ≤ margin) (ha : cp 9 ≠ 0) :
    q_limits cp dstarmax2 margin p = q_limits_spec cp dstarmax2 margin p ∧
    (∀ e r : ℤ × ℤ, ewald_sphere_q_limits cp margin p = some e →
      resolution_q_limits cp dstarmax2 margin p = some r →
      max e.1 r.1 ≤ min e.2 r.2 →
      q_limits cp dstarmax2 margin p = (max e.1 r.1, min e.2 r.2 + 1)) := by
  constructor
  · have hres := solve_quad_eq_nil_iff (b := 2 * (p : ℝ) * cp 8)
      (c := (p : ℝ) * (p : ℝ) * cp 5 + cp 0 * dstarmax2) ha
    have hbeg := solve_quad_eq_nil_iff (b := 2 * (cp 6 + (p : ℝ) * cp 8))
      (c := cp 1 + (p : ℝ) * (2 * cp 3 + (p : ℝ) * cp 5)) ha
    have hend := solve_quad_eq_nil_iff (b := 2 * (cp 7 + (p : ℝ) * cp 8))
      (c := cp 2 + (p : ℝ) * (2 * cp 4 + (p : ℝ) * cp 5)) ha
    unfold q_limits q_limits_spec resolution_q_limits ewald_sphere_q_limits
    by_cases h1 : solve_quad (cp 9) (2 * (p : ℝ) * cp 8)
        ((p : ℝ) * (p : ℝ) * cp 5 + cp 0 * dstarmax2) = []
    · rw [if_pos (Or.inl (hres.mp h1))]
      simp [h1]
    · by_cases h2 : solve_quad (cp 9) (2 * (cp 6 + (p : ℝ) * cp 8))
          (cp 1 + (p : ℝ) * (2 * cp 3 + (p : ℝ) * cp 5)) ++
        solve_quad (cp 9) (2 * (cp 7 + (p : ℝ) * cp 8))
          (cp 2 + (p : ℝ) * (2 * cp 4 + (p : ℝ) * cp 5)) = []
      · rw [List.append_eq_nil] at h2
        rw [if_pos (Or.inr ⟨hbeg.mp h2.1, hend.mp h2.2⟩)]
        simp [h2.1, h2.2]
      · have hc : ¬ ((∀ x : ℝ, cp 9 * (x * x) + 2 * (p : ℝ) * cp 8 * x +
            ((p : ℝ) * (p : ℝ) * cp 5 + cp 0 * dstarmax2) ≠ 0) ∨
           ((∀ x : ℝ, cp 9 * (x * x) + 2 * (cp 6 + (p : ℝ) * cp 8) * x +
              (cp 1 + (p : ℝ) * (2 * cp 3 + (p : ℝ) * cp 5)) ≠ 0) ∧
            (∀ x : ℝ, cp 9 * (x * x) + 2 * (cp 7 + (p : ℝ) * cp 8) * x +
              (cp 2 + (p : ℝ) * (2 * cp 4 + (p : ℝ) * cp 5)) ≠ 0))) := by
          rintro (h | ⟨hb, he⟩)
          · exact h1 (hres.mpr h)
          · exact h2 (by rw [List.append_eq_nil]
                         exact ⟨hbeg.mpr hb, hend.mpr he⟩)
        rw [if_neg hc]
        simp [h1, h2]
  · intro e r he hr hov
    have h1 : e.1 ≤ e.2 := ewald_sphere_q_limits_sorted hm he
    have h2 : r.1 ≤ r.2 := resolution_q_limits_sorted hm hr
    obtain ⟨hmid1, hmid2⟩ := sort4_mid_of_overlap h1 h2 hov
    unfold q_limits
    rw [he, hr]
    simp only [hmid1, hmid2]

/-! ## The r limits of the ReekeModel -/

/-- ReekeModel::resolution_r_limits. The source signature also receives p,
which is read only through the precomputed cq values. -/
def resolution_r_limits (cp : Fin 21 → ℝ) (dstarmax2 : ℝ) (margin : ℤ)
    (q : ℝ) (cq : Fin 5 → ℝ) : Option (ℤ × ℤ) :=
  let limits := solve_quad (cp 0) (cq 0 + q * cp 11)
    (cq 1 + q * q * cp 13 + q * cq 2 - dstarmax2)
  if limits = [] then none
  else some (itrunc (listMin limits) - margin, itrunc (listMax limits) + margin)

/-- ReekeModel::ewald_sphere_r_limits. Note the transcribed quirk of the
source: the linear coefficient b of the end setting reuses cp[15] of the
begin setting. -/
def ewald_sphere_r_limits (cp : Fin 21 → ℝ) (margin : ℤ) (q : ℝ)
    (cq : Fin 5 → ℝ) : List (ℤ × ℤ) :=
  if solve_quad (cp 0) (cq 0 + q * cp 11 + cp 15)
      (cq 1 + q * (cq 2 + cp 17) + q * q * cp 13 + cq 3) ≠ [] ∧
     solve_quad (cp 0) (cq 0 + q * cp 11 + cp 15)
      (cq 1 + q * (cq 2 + cp 18) + q * q * cp 13 + cq 4) ≠ [] then
    [(itrunc (min
        (listMin (solve_quad (cp 0) (cq 0 + q * cp 11 + cp 15)
          (cq 1 + q * (cq 2 + cp 17) + q * q * cp 13 + cq 3)))
        (listMin (solve_quad (cp 0) (cq 0 + q * cp 11 + cp 15)
          (cq 1 + q * (cq 2 + cp 18) + q * q * cp 13 + cq 4)))) - margin,
      itrunc (max
        (listMin (solve_quad (cp 0) (cq 0 + q * cp 11 + cp 15)
          (cq 1 + q * (cq 2 + cp 17) + q * q * cp 13 + cq 3)))
        (listMin (solve_quad (cp 0) (cq 0 + q * cp 11 + cp 15)
          (cq 1 + q * (cq 2 + cp 18) + q * q * cp 13 + cq 4)))) + margin),
     (itrunc (min
        (listMax (solve_quad (cp 0) (cq 0 + q * cp 11 + cp 15)
          (cq 1 + q * (cq 2 + cp 17) + q * q * cp 13 + cq 3)))
        (listMax (solve_quad (cp 0) (cq 0 + q * cp 11 + cp 15)
          (cq 1 + q * (cq 2 + cp 18) + q * q * cp 13 + cq 4)))) - margin,
      itrunc (max
        (listMax (solve_quad (cp 0) (cq 0 + q * cp 11 + cp 15)
          (cq 1 + q * (cq 2 + cp 17) + q * q * cp 13 + cq 3)))
        (listMax (solve_quad (cp 0) (cq 0 + q * cp 11 + cp 15)
          (cq 1 + q * (cq 2 + cp 18) + q * q * cp 13 + cq 4)))) + margin)]
  else
    (if solve_quad (cp 0) (cq 0 + q * cp 11 + cp 15)
        (cq 1 + q * (cq 2 + cp 17) + q * q * cp 13 + cq 3) ≠ [] then
      [(itrunc (listMin (solve_quad (cp 0) (cq 0 + q * cp 11 + cp 15)
          (cq 1 + q * (cq 2 + cp 17) + q * q * cp 13 + cq 3))) - margin,
        itrunc (listMax (solve_quad (cp 0) (cq 0 + q * cp 11 + cp 15)
          (cq 1 + q * (cq 2 + cp 17) + q * q * cp 13 + cq 3))) + margin)]
      else []) ++
    (if solve_quad (cp 0) (cq 0 + q * cp 11 + cp 15)
        (cq 1 + q * (cq 2 + cp 18) + q * q * cp 13 + cq 4) ≠ [] then
      [(itrunc (listMin (solve_quad (cp 0) (cq 0 + q * cp 11 + cp 15)
          (cq 1 + q * (cq 2 + cp 18) + q * q * cp 13 + cq 4))) - margin,
        itrunc (listMax (solve_quad (cp 0) (cq 0 + q * cp 11 + cp 15)
          (cq 1 + q * (cq 2 + cp 18) + q * q * cp 13 + cq 4))) + margin)]
      else [])

/-- The cq values precomputed at the top of ReekeModel::r_limits. -/
def cq_of (cp : Fin 21 → ℝ) (p : ℝ) : Fin 5 → ℝ := fun i =>
  if i.val = 0 then p * cp 10
  else if i.val = 1 then p * p * cp 12
  else if i.val = 2 then p * cp 14
  else if i.val = 3 then p * cp 19
  else p * cp 20

/-- The clipping of an Ewald r range to the resolution r range performed
inside the loop of ReekeModel::r_limits. -/
def clipr (rr iv : ℤ × ℤ) : ℤ × ℤ := (max iv.1 rr.1, min iv.2 rr.2)

/-- The final fixup of ReekeModel::r_limits: when two ranges survive, swap
them if out of order, then truncate the second at the end of the first if
they overlap. -/
def fixupr : List (ℤ × ℤ) → List (ℤ × ℤ)
  | [x, y] =>
      [(if y.1 < x.1 then (y, x) else (x, y)).1,
       if (if y.1 < x.1 then (y, x) else (x, y)).2.1 <
          (if y.1 < x.1 then (y, x) else (x, y)).1.2 then
         ((if y.1 < x.1 then (y, x) else (x, y)).1.2,
          (if y.1 < x.1 then (y, x) else (x, y)).2.2)
       else (if y.1 < x.1 then (y, x) else (x, y)).2]
  | l => l

theorem fixupr_nil : fixupr [] = [] := rfl

theorem fixupr_single (a : ℤ × ℤ) : fixupr [a] = [a] := rfl

theorem fixupr_pair (a1 a2 b1 b2 : ℤ) :
    fixupr [(a1, a2), (b1, b2)] =
      if b1 < a1 then [(b1, b2), if a1 < b2 then (b2, a2) else (a1, a2)]
      else [(a1, a2), if b1 < a2 then (a2, b2) else (b1, b2)] := by
  by_cases h1 : b1 < a1
  · simp [fixupr, h1]
  · simp [fixupr, h1]

/-- ReekeModel::r_limits: Ewald sphere r ranges clipped to the resolution
range, empty ranges dropped and converted to closed-open form, and the
fixup enforcing order and disjointness applied to two surviving ranges. -/
def r_limits (cp : Fin 21 → ℝ) (dstarmax2 : ℝ) (margin : ℤ) (p q : ℝ) :
    List (ℤ × ℤ) :=
  match resolution_r_limits cp dstarmax2 margin q (cq_of cp p) with
  | none => []
  | some rr =>
    fixupr ((((ewald_sphere_r_limits cp margin q (cq_of cp p)).map
      (clipr rr)).filter (fun iv => decide (iv.1 < iv.2))).map
        (fun iv => (iv.1, iv.2 + 1)))

/-- Structure of the Ewald r ranges: none, one, or two ranges that are
componentwise ordered. -/
theorem ewald_sphere_r_limits_cases (cp : Fin 21 → ℝ) (margin : ℤ) (q : ℝ)
    (cq : Fin 5 → ℝ) :
    ewald_sphere_r_limits cp margin q cq = [] ∨
    (∃ x, ewald_sphere_r_limits cp margin q cq = [x]) ∨
    (∃ x y, ewald_sphere_r_limits cp margin q cq = [x, y] ∧
      x.1 ≤ y.1 ∧ x.2 ≤ y.2) := by
  unfold ewald_sphere_r_limits
  set lb := solve_quad (cp 0) (cq 0 + q * cp 11 + cp 15)
    (cq 1 + q * (cq 2 + cp 17) + q * q * cp 13 + cq 3) with hlb
  set le := solve_quad (cp 0) (cq 0 + q * cp 11 + cp 15)
    (cq 1 + q * (cq 2 + cp 18) + q * q * cp 13 + cq 4) with hle
  by_cases hb : lb = [] <;> by_cases he : le = []
  · exact Or.inl (by simp [hb, he])
  · exact Or.inr (Or.inl ⟨(itrunc (listMin le) - margin,
      itrunc (listMax le) + margin), by simp [hb, he]⟩)
  · exact Or.inr (Or.inl ⟨(itrunc (listMin lb) - margin,
      itrunc (listMax lb) + margin), by simp [hb, he]⟩)
  · refine Or.inr (Or.inr ⟨(itrunc (min (listMin lb) (listMin le)) - margin,
      itrunc (max (listMin lb) (listMin le)) + margin),
      ((itrunc (min (listMax lb) (listMax le)) - margin,
        itrunc (max (listMax lb) (listMax le)) + margin)), ?_, ?_, ?_⟩)
    · rw [if_pos ⟨hb, he⟩]
    · have h1 : min (listMin lb) (listMin le) ≤ min (listMax lb) (listMax le) :=
        min_le_min (listMin_le_listMax lb) (listMin_le_listMax le)
      have h2 := itrunc_mono h1
      simp only
      omega
    · have h1 : max (listMin lb) (listMin le) ≤ max (listMax lb) (listMax le) :=
        max_le_max (listMin_le_listMax lb) (listMin_le_listMax le)
      have h2 := itrunc_mono h1
      simp only
      omega

/-- Claim C5 as amended: r_limits returns at most two ranges; the first
returned range always has lower strictly below upper; two returned ranges
are ascending and disjoint, and the second satisfies lower at most upper,
where equality (an empty second range) is possible when the overlap fixup
truncates it. -/
theorem r_limits_shape (cp : Fin 21 → ℝ) (dstarmax2 : ℝ) (margin : ℤ)
    (p q : ℝ) :
    (r_limits cp dstarmax2 margin p q).length ≤ 2 ∧
    (∀ x, (r_limits cp dstarmax2 margin p q).head? = some x → x.1 < x.2) ∧
    (∀ x y, r_limits cp dstarmax2 margin p q = [x, y] →
      x.1 ≤ y.1 ∧ x.2 ≤ y.1 ∧ y.1 ≤ y.2) := by
  unfold r_limits
  rcases hres : resolution_r_limits cp dstarmax2 margin q (cq_of cp p) with
    _ | rr
  · simp
  · rcases ewald_sphere_r_limits_cases cp margin q (cq_of cp p) with
      hew | ⟨x, hew⟩ | ⟨x, y, hew, hxy1, hxy2⟩
    · rw [hew]
      simp [fixupr_nil]
    · rw [hew]
      simp only [List.map_cons, List.map_nil]
      by_cases hx : (clipr rr x).1 < (clipr rr x).2
      · have hfil : List.filter (fun iv => decide (iv.1 < iv.2))
            [clipr rr x] = [clipr rr x] := by
          simp [List.filter_cons, hx]
        rw [hfil]
        simp only [List.map_cons, List.map_nil, fixupr_single]
        refine ⟨by simp, ?_, by simp⟩
        intro z hz
        simp only [List.head?_cons, Option.some_inj] at hz
        subst hz
        dsimp only
        omega
      · have hfil : List.filter (fun iv => decide (iv.1 < iv.2))
            [clipr rr x] = [] := by
          simp [List.filter_cons, hx]
        rw [hfil]
        simp [fixupr_nil]
    · rw [hew]
      have hc1 : (clipr rr x).1 ≤ (clipr rr y).1 := max_le_max hxy1 (le_refl _)
      have hc2 : (clipr rr x).2 ≤ (clipr rr y).2 := min_le_min hxy2 (le_refl _)
      simp only [List.map_cons, List.map_nil]
      by_cases hx : (clipr rr x).1 < (clipr rr x).2 <;>
        by_cases hy : (clipr rr y).1 < (clipr rr y).2
      · have hfil : List.filter (fun iv => decide (iv.1 < iv.2))
            [clipr rr x, clipr rr y] = [clipr rr x, clipr rr y] := by
          simp [List.filter_cons, hx, hy]
        rw [hfil]
        simp only [List.map_cons, List.map_nil]
        rw [fixupr_pair]
        rw [if_neg (by omega : ¬ ((clipr rr y).1 < (clipr rr x).1))]
        by_cases hov : (clipr rr y).1 < (clipr rr x).2 + 1
        · rw [if_pos hov]
          refine ⟨by simp, ?_, ?_⟩
          · intro z hz
            simp only [List.head?_cons, Option.some_inj] at hz
            subst hz
            dsimp only
            omega
          · intro a b hab
            simp only [List.cons.injEq, and_true] at hab
            obtain ⟨ha, hb⟩ := hab
            subst ha
            subst hb
            dsimp only
            omega
        · rw [if_neg hov]
          refine ⟨by simp, ?_, ?_⟩
          · intro z hz
            simp only [List.head?_cons, Option.some_inj] at hz
            subst hz
            dsimp only
            omega
          · intro a b hab
            simp only [List.cons.injEq, and_true] at hab
            obtain ⟨ha, hb⟩ := hab
            subst ha
            subst hb
            dsimp only
            omega
      · have hfil : List.filter (fun iv => decide (iv.1 < iv.2))
            [clipr rr x, clipr rr y] = [clipr rr x] := by
          simp [List.filter_cons, hx, hy]
        rw [hfil]
        simp only [List.map_cons, List.map_nil, fixupr_single]
        refine ⟨by simp, ?_, by simp⟩
        intro z hz
        simp only [List.head?_cons, Option.some_inj] at hz
        subst hz
        dsimp only
        omega
      · have hfil : List.filter (fun iv => decide (iv.1 < iv.2))
            [clipr rr x, clipr rr y] = [clipr rr y] := by
          simp [List.filter_cons, hx, hy]
        rw [hfil]
        simp only [List.map_cons, List.map_nil, fixupr_single]
        refine ⟨by simp, ?_, by simp⟩
        intro z hz
        simp only [List.head?_cons, Option.some_inj] at hz
        subst hz
        dsimp only
        omega
      · have hfil : List.filter (fun iv => decide (iv.1 < iv.2))
            [clipr rr x, clipr rr y] = [] := by
          simp [List.filter_cons, hx, hy]
        rw [hfil]
        simp [fixupr_nil]


/-! ### A concrete model on which the original claim C5 fails -/

/-- A concrete vector of the 21 precomputed scalars: cp[0]=1, cp[11]=11,
cp[13]=11, cp[15]=-11, cp[17]=-11, cp[18]=-20, all others 0. -/
def cpEx : Fin 21 → ℝ := fun i =>
  if i.val = 0 then 1
  else if i.val = 11 then 11
  else if i.val = 13 then 11
  else if i.val = 15 then -11
  else if i.val = 17 then -11
  else if i.val = 18 then -20
  else 0

theorem cpEx_0 : cpEx 0 = 1 := by
  have h : ((0 : Fin 21)).val = 0 := rfl
  simp [cpEx, h]

theorem cpEx_11 : cpEx 11 = 11 := by
  have h : ((11 : Fin 21)).val = 11 := rfl
  simp [cpEx, h]

theorem cpEx_13 : cpEx 13 = 11 := by
  have h : ((13 : Fin 21)).val = 13 := rfl
  simp [cpEx, h]

theorem cpEx_15 : cpEx 15 = -11 := by
  have h : ((15 : Fin 21)).val = 15 := rfl
  simp [cpEx, h]

theorem cpEx_17 : cpEx 17 = -11 := by
  have h : ((17 : Fin 21)).val = 17 := rfl
  simp [cpEx, h]

theorem cpEx_18 : cpEx 18 = -20 := by
  have h : ((18 : Fin 21)).val = 18 := rfl
  simp [cpEx, h]

theorem cq_of_cpEx : cq_of cpEx 0 = fun _ => 0 := by
  funext i
  unfold cq_of
  split_ifs <;> ring

theorem solve_quad_ex1 : solve_quad 1 11 10 = [-10, -1] := by
  unfold solve_quad
  rw [if_neg (by norm_num : ¬ (1:ℝ) = 0)]
  rw [if_neg (by norm_num : ¬ ((11:ℝ) * 11 - 4 * 1 * 10 < 0))]
  rw [if_neg (by norm_num : ¬ ((11:ℝ) * 11 - 4 * 1 * 10 = 0))]
  have hs : Real.sqrt ((11:ℝ) * 11 - 4 * 1 * 10) = 9 := by
    rw [show (11:ℝ) * 11 - 4 * 1 * 10 = 9 ^ 2 by norm_num]
    exact Real.sqrt_sq (by norm_num)
  rw [hs]
  rw [if_pos (by norm_num : (-(11:ℝ) - 9) / (2 * 1) ≤ (-(11:ℝ) + 9) / (2 * 1))]
  norm_num

theorem solve_quad_ex2 : solve_quad 1 0 0 = [0] := by
  unfold solve_quad
  rw [if_neg (by norm_num : ¬ (1:ℝ) = 0)]
  rw [if_neg (by norm_num : ¬ ((0:ℝ) * 0 - 4 * 1 * 0 < 0))]
  rw [if_pos (by norm_num : ((0:ℝ) * 0 - 4 * 1 * 0 = 0))]
  norm_num

theorem solve_quad_ex3 : solve_quad 1 0 (-9) = [-3, 3] := by
  unfold solve_quad
  rw [if_neg (by norm_num : ¬ (1:ℝ) = 0)]
  rw [if_neg (by norm_num : ¬ ((0:ℝ) * 0 - 4 * 1 * (-9) < 0))]
  rw [if_neg (by norm_num : ¬ ((0:ℝ) * 0 - 4 * 1 * (-9) = 0))]
  have hs : Real.sqrt ((0:ℝ) * 0 - 4 * 1 * (-9)) = 6 := by
    rw [show (0:ℝ) * 0 - 4 * 1 * (-9) = 6 ^ 2 by norm_num]
    exact Real.sqrt_sq (by norm_num)
  rw [hs]
  rw [if_pos (by norm_num : (-(0:ℝ) - 6) / (2 * 1) ≤ (-(0:ℝ) + 6) / (2 * 1))]
  norm_num

theorem res_r_limits_ex :
    resolution_r_limits cpEx 1 1 1 (fun _ => 0) = some (-11, 0) := by
  unfold resolution_r_limits
  have harg : solve_quad (cpEx 0) ((0:ℝ) + 1 * cpEx 11)
      ((0:ℝ) + 1 * 1 * cpEx 13 + 1 * (0:ℝ) - 1) = solve_quad 1 11 10 := by
    rw [cpEx_0, cpEx_11, cpEx_13]
    norm_num
  simp only
  rw [harg, solve_quad_ex1]
  rw [if_neg (by simp : ¬ ([(-10 : ℝ), -1] = []))]
  norm_num [listMin, listMax, itrunc]
  constructor
  · rw [show ((-10 : ℝ)) = ((-10 : ℤ) : ℝ) by norm_num, Int.ceil_intCast]
    norm_num
  · rw [show ((-1 : ℝ)) = ((-1 : ℤ) : ℝ) by norm_num, Int.ceil_intCast]
    norm_num

theorem ewald_r_limits_ex :
    ewald_sphere_r_limits cpEx 1 1 (fun _ => 0) = [(-4, 1), (-1, 4)] := by
  unfold ewald_sphere_r_limits
  have hargb : solve_quad (cpEx 0) ((0:ℝ) + 1 * cpEx 11 + cpEx 15)
      ((0:ℝ) + 1 * ((0:ℝ) + cpEx 17) + 1 * 1 * cpEx 13 + (0:ℝ)) =
      solve_quad 1 0 0 := by
    rw [cpEx_0, cpEx_11, cpEx_13, cpEx_15, cpEx_17]
    norm_num
  have harge : solve_quad (cpEx 0) ((0:ℝ) + 1 * cpEx 11 + cpEx 15)
      ((0:ℝ) + 1 * ((0:ℝ) + cpEx 18) + 1 * 1 * cpEx 13 + (0:ℝ)) =
      solve_quad 1 0 (-9) := by
    rw [cpEx_0, cpEx_11, cpEx_13, cpEx_15, cpEx_18]
    norm_num
  simp only
  rw [hargb, harge, solve_quad_ex2, solve_quad_ex3]
  rw [if_pos ⟨by simp, by simp⟩]
  norm_num [listMin, listMax, itrunc]
  rw [show ((-3 : ℝ)) = ((-3 : ℤ) : ℝ) by norm_num, Int.ceil_intCast]
  norm_num

theorem r_limits_ex : r_limits cpEx 1 1 0 1 = [(-4, 1), (1, 1)] := by
  unfold r_limits
  rw [cq_of_cpEx, res_r_limits_ex]
  dsimp only
  rw [ewald_r_limits_ex]
  have hclip1 : clipr (-11, 0) (-4, 1) = (-4, 0) := by
    unfold clipr
    norm_num
  have hclip2 : clipr (-11, 0) (-1, 4) = (-1, 0) := by
    unfold clipr
    norm_num
  simp only [List.map_cons, List.map_nil, hclip1, hclip2]
  have hfil : List.filter (fun iv => decide (iv.1 < iv.2))
      [((-4 : ℤ), (0 : ℤ)), (-1, 0)] = [(-4, 0), (-1, 0)] := by
    simp [List.filter_cons]
  rw [hfil]
  simp only [List.map_cons, List.map_nil]
  norm_num [fixupr_pair]

/-- Claim C5 as stated is false: on the model with the scalars cpEx,
resolution 1, margin 1, at (p, q) = (0, 1), r_limits returns a second
interval whose lower bound equals its upper bound. -/
theorem r_limits_lower_lt_upper_fails :
    ¬ (∀ iv ∈ r_limits cpEx 1 1 0 1, iv.1 < iv.2) := by
  intro hall
  have h := hall (1, 1) (by rw [r_limits_ex]; simp)
  simp at h


/-- A concrete scalar vector with cp[9] = 1 and all other entries 0, used
to instantiate the q-limit characterisation. -/
def cpW : Fin 21 → ℝ := fun i => if i.val = 9 then 1 else 0

theorem cpW_9 : cpW 9 = 1 := by
  have h : ((9 : Fin 21)).val = 9 := rfl
  simp [cpW, h]

theorem q_limits_characterisation_witness :
    ((0 : ℤ) ≤ 1 ∧ cpW 9 ≠ 0) ∧
    (q_limits cpW 1 1 0 = q_limits_spec cpW 1 1 0 ∧
     (∀ e r : ℤ × ℤ, ewald_sphere_q_limits cpW 1 0 = some e →
       resolution_q_limits cpW 1 1 0 = some r →
       max e.1 r.1 ≤ min e.2 r.2 →
       q_limits cpW 1 1 0 = (max e.1 r.1, min e.2 r.2 + 1))) :=
  ⟨⟨by norm_num, by rw [cpW_9]; norm_num⟩,
    q_limits_characterisation cpW 1 1 0 (by norm_num)
      (by rw [cpW_9]; norm_num)⟩

theorem r_limits_shape_witness :
    (r_limits cpEx 1 1 0 1).head? = some (-4, 1) ∧ ((-4 : ℤ) < 1) ∧
    r_limits cpEx 1 1 0 1 = [(-4, 1), (1, 1)] ∧
    ((-4 : ℤ) ≤ 1 ∧ (1 : ℤ) ≤ 1 ∧ (1 : ℤ) ≤ 1) := by
  refine ⟨by rw [r_limits_ex]; rfl, ?_, r_limits_ex, ?_⟩
  · exact (r_limits_shape cpEx 1 1 0 1).2.1 (-4, 1)
      (by rw [r_limits_ex]; rfl)
  · exact (r_limits_shape cpEx 1 1 0 1).2.2 (-4, 1) (1, 1) r_limits_ex


/-! ## The p limits of the ReekeModel -/

/-- reeke_detail::sort2 on a pair of doubles. -/
def sortp (a : ℝ × ℝ) : ℝ × ℝ := if a.1 > a.2 then (a.2, a.1) else a

/-- ReekeModel::compute_resolution_p_limits, including its assertion that
sin(theta) lies in [-1, 1] (modelled by the option guard). As in the
source, the sign is computed once from v_end and applied to both the begin
and the end limits; the v_beg parameter of the source is unused. -/
def compute_resolution_p_limits (wavelength dstarmax : ℝ)
    (source vBeg vEnd : Vec3) (dpBeg dpEnd pDist : ℝ) :
    Option ((ℝ × ℝ) × (ℝ × ℝ)) :=
  if 0.5 * wavelength * dstarmax ≤ 1 ∧ -1 ≤ 0.5 * wavelength * dstarmax then
    some
      (sortp
        (((if 0 ≤ dot3 vEnd source then (1:ℝ) else -1) *
            (2 * (0.5 * wavelength * dstarmax) * (0.5 * wavelength * dstarmax)
              * dpBeg) -
          Real.sin (2 * Real.arcsin (0.5 * wavelength * dstarmax)) *
            Real.sqrt (max (1 / (wavelength * wavelength) - dpBeg * dpBeg) 0))
            / pDist,
         ((if 0 ≤ dot3 vEnd source then (1:ℝ) else -1) *
            (2 * (0.5 * wavelength * dstarmax) * (0.5 * wavelength * dstarmax)
              * dpBeg) +
          Real.sin (2 * Real.arcsin (0.5 * wavelength * dstarmax)) *
            Real.sqrt (max (1 / (wavelength * wavelength) - dpBeg * dpBeg) 0))
            / pDist),
       sortp
        (((if 0 ≤ dot3 vEnd source then (1:ℝ) else -1) *
            (2 * (0.5 * wavelength * dstarmax) * (0.5 * wavelength * dstarmax)
              * dpEnd) -
          Real.sin (2 * Real.arcsin (0.5 * wavelength * dstarmax)) *
            Real.sqrt (max (1 / (wavelength * wavelength) - dpEnd * dpEnd) 0))
            / pDist,
         ((if 0 ≤ dot3 vEnd source then (1:ℝ) else -1) *
            (2 * (0.5 * wavelength * dstarmax) * (0.5 * wavelength * dstarmax)
              * dpEnd) +
          Real.sin (2 * Real.arcsin (0.5 * wavelength * dstarmax)) *
            Real.sqrt (max (1 / (wavelength * wavelength) - dpEnd * dpEnd) 0))
            / pDist))
  else none

/-- Claim C6 reading of compute_resolution_p_limits: for each orientation
the sign sigma is taken from that same orientation, namely
sign(v_beg . source) for the begin limits and sign(v_end . source) for the
end limits. -/
def compute_resolution_p_limits_spec (wavelength dstarmax : ℝ)
    (source vBeg vEnd : Vec3) (dpBeg dpEnd pDist : ℝ) :
    Option ((ℝ × ℝ) × (ℝ × ℝ)) :=
  if 0.5 * wavelength * dstarmax ≤ 1 ∧ -1 ≤ 0.5 * wavelength * dstarmax then
    some
      (sortp
        (((if 0 ≤ dot3 vBeg source then (1:ℝ) else -1) *
            (2 * (0.5 * wavelength * dstarmax) * (0.5 * wavelength * dstarmax)
              * dpBeg) -
          Real.sin (2 * Real.arcsin (0.5 * wavelength * dstarmax)) *
            Real.sqrt (max (1 / (wavelength * wavelength) - dpBeg * dpBeg) 0))
            / pDist,
         ((if 0 ≤ dot3 vBeg source then (1:ℝ) else -1) *
            (2 * (0.5 * wavelength * dstarmax) * (0.5 * wavelength * dstarmax)
              * dpBeg) +
          Real.sin (2 * Real.arcsin (0.5 * wavelength * dstarmax)) *
            Real.sqrt (max (1 / (wavelength * wavelength) - dpBeg * dpBeg) 0))
            / pDist),
       sortp
        (((if 0 ≤ dot3 vEnd source then (1:ℝ) else -1) *
            (2 * (0.5 * wavelength * dstarmax) * (0.5 * wavelength * dstarmax)
              * dpEnd) -
          Real.sin (2 * Real.arcsin (0.5 * wavelength * dstarmax)) *
            Real.sqrt (max (1 / (wavelength * wavelength) - dpEnd * dpEnd) 0))
            / pDist,
         ((if 0 ≤ dot3 vEnd source then (1:ℝ) else -1) *
            (2 * (0.5 * wavelength * dstarmax) * (0.5 * wavelength * dstarmax)
              * dpEnd) +
          Real.sin (2 * Real.arcsin (0.5 * wavelength * dstarmax)) *
            Real.sqrt (max (1 / (wavelength * wavelength) - dpEnd * dpEnd) 0))
            / pDist))
  else none

theorem sin_two_arcsin {x : ℝ} (h1 : -1 ≤ x) (h2 : x ≤ 1) :
    Real.sin (2 * Real.arcsin x) = 2 * x * Real.sqrt (1 - x ^ 2) := by
  rw [Real.sin_two_mul, Real.sin_arcsin h1 h2, Real.cos_arcsin]


theorem sqrt_sixteen_div : Real.sqrt (16 / 25 : ℝ) = 4 / 5 := by
  rw [show (16 / 25 : ℝ) = (4 / 5) ^ 2 by norm_num]
  exact Real.sqrt_sq (by norm_num)

theorem sin_two_arcsin_ex : Real.sin (2 * Real.arcsin (3 / 5 : ℝ)) = 24 / 25 := by
  rw [sin_two_arcsin (by norm_num) (by norm_num)]
  rw [show (1 : ℝ) - (3 / 5) ^ 2 = 16 / 25 by norm_num, sqrt_sixteen_div]
  norm_num

/-- Claim C6 is contradicted by the code at a concrete input: with
wavelength 1, d*max 6/5, source (1,0,0), v_beg = (-3/5,4/5,0),
v_end = (3/5,4/5,0), dp_beg = dp_end = 3/5 and p_dist = 1, the begin
resolution p limits computed by the source use sigma = sign(v_end.source)
= +1 and give (-42/125, 6/5), while the claimed formula with
sigma = sign(v_beg.source) = -1 gives (-6/5, 42/125). -/
theorem compute_resolution_p_limits_sign_bug :
    compute_resolution_p_limits 1 (6/5) (1, 0, 0) (-3/5, 4/5, 0)
        (3/5, 4/5, 0) (3/5) (3/5) 1 =
      some ((-42/125, 6/5), (-42/125, 6/5)) ∧
    compute_resolution_p_limits_spec 1 (6/5) (1, 0, 0) (-3/5, 4/5, 0)
        (3/5, 4/5, 0) (3/5) (3/5) 1 =
      some ((-6/5, 42/125), (-42/125, 6/5)) ∧
    compute_resolution_p_limits 1 (6/5) (1, 0, 0) (-3/5, 4/5, 0)
        (3/5, 4/5, 0) (3/5) (3/5) 1 ≠
      compute_resolution_p_limits_spec 1 (6/5) (1, 0, 0) (-3/5, 4/5, 0)
        (3/5, 4/5, 0) (3/5) (3/5) 1 := by
  have hb : dot3 (-3/5, 4/5, 0) (1, 0, 0) = (-3/5 : ℝ) := by
    norm_num [dot3]
  have he : dot3 (3/5, 4/5, 0) (1, 0, 0) = (3/5 : ℝ) := by
    norm_num [dot3]
  have hcode : compute_resolution_p_limits 1 (6/5) (1, 0, 0) (-3/5, 4/5, 0)
      (3/5, 4/5, 0) (3/5) (3/5) 1 =
      some ((-42/125, 6/5), (-42/125, 6/5)) := by
    unfold compute_resolution_p_limits
    rw [if_pos (by norm_num)]
    rw [show (0.5 : ℝ) * 1 * (6/5) = 3/5 by norm_num]
    rw [he, if_pos (by norm_num : (0:ℝ) ≤ 3/5)]
    rw [show max (1 / ((1:ℝ) * 1) - 3/5 * (3/5)) 0 = 16/25 by norm_num]
    rw [sqrt_sixteen_div, sin_two_arcsin_ex]
    unfold sortp
    norm_num
  have hspec : compute_resolution_p_limits_spec 1 (6/5) (1, 0, 0)
      (-3/5, 4/5, 0) (3/5, 4/5, 0) (3/5) (3/5) 1 =
      some ((-6/5, 42/125), (-42/125, 6/5)) := by
    unfold compute_resolution_p_limits_spec
    rw [if_pos (by norm_num)]
    rw [show (0.5 : ℝ) * 1 * (6/5) = 3/5 by norm_num]
    rw [hb, he, if_neg (by norm_num : ¬ ((0:ℝ) ≤ -3/5)),
      if_pos (by norm_num : (0:ℝ) ≤ 3/5)]
    rw [show max (1 / ((1:ℝ) * 1) - 3/5 * (3/5)) 0 = 16/25 by norm_num]
    rw [sqrt_sixteen_div, sin_two_arcsin_ex]
    unfold sortp
    norm_num
  refine ⟨hcode, hspec, ?_⟩
  rw [hcode, hspec]
  intro hcontra
  simp only [Option.some_inj, Prod.mk.injEq] at hcontra
  norm_num at hcontra


/-- The final block of ReekeModel::compute_p_limits (selection between the
Ewald and resolution p limits by the sign of v_end . source, followed by
the conversion to a closed-open integer interval with C casts). The four
sorted real limit pairs and v_end . source are passed as arguments. -/
def compute_p_limits_combine (resBeg resEnd ewBeg ewEnd : ℝ × ℝ)
    (vEndDotSource : ℝ) (margin : ℤ) : ℤ × ℤ :=
  if (if (0:ℝ) ≤ vEndDotSource then (1:ℤ) else -1) < 0 then
    (itrunc (min (min (min (max resBeg.1 ewBeg.1) (max resEnd.1 ewEnd.1))
        (max resBeg.2 ewBeg.2)) (max resEnd.2 ewEnd.2)) - margin,
     itrunc (max (max (max (max resBeg.1 ewBeg.1) (max resEnd.1 ewEnd.1))
        (max resBeg.2 ewBeg.2)) (max resEnd.2 ewEnd.2)) + margin + 1)
  else
    (itrunc (min (min (min (min resBeg.1 ewBeg.1) (min resEnd.1 ewEnd.1))
        (min resBeg.2 ewBeg.2)) (min resEnd.2 ewEnd.2)) - margin,
     itrunc (max (max (max (min resBeg.1 ewBeg.1) (min resEnd.1 ewEnd.1))
        (min resBeg.2 ewBeg.2)) (min resEnd.2 ewEnd.2)) + margin + 1)

/-- Claim C7 as amended: the combined p interval is
[trunc(m) - margin, trunc(M) + margin + 1), where m and M are the minimum
and maximum of the four per-side-selected endpoints (max per side when
sigma < 0, min per side otherwise) and trunc rounds toward zero. -/
def compute_p_limits_combine_spec (resBeg resEnd ewBeg ewEnd : ℝ × ℝ)
    (vEndDotSource : ℝ) (margin : ℤ) : ℤ × ℤ :=
  if vEndDotSource < 0 then
    (itrunc (min (min (max resBeg.1 ewBeg.1) (max resEnd.1 ewEnd.1))
        (min (max resBeg.2 ewBeg.2) (max resEnd.2 ewEnd.2))) - margin,
     itrunc (max (max (max resBeg.1 ewBeg.1) (max resEnd.1 ewEnd.1))
        (max (max resBeg.2 ewBeg.2) (max resEnd.2 ewEnd.2))) + margin + 1)
  else
    (itrunc (min (min (min resBeg.1 ewBeg.1) (min resEnd.1 ewEnd.1))
        (min (min resBeg.2 ewBeg.2) (min resEnd.2 ewEnd.2))) - margin,
     itrunc (max (max (min resBeg.1 ewBeg.1) (min resEnd.1 ewEnd.1))
        (max (min resBeg.2 ewBeg.2) (min resEnd.2 ewEnd.2))) + margin + 1)

/-- Claim C7 as originally stated: the same combination but converting the
real extrema with floor rather than with truncation toward zero. -/
def compute_p_limits_combine_floor (resBeg resEnd ewBeg ewEnd : ℝ × ℝ)
    (vEndDotSource : ℝ) (margin : ℤ) : ℤ × ℤ :=
  if vEndDotSource < 0 then
    (⌊min (min (max resBeg.1 ewBeg.1) (max resEnd.1 ewEnd.1))
        (min (max resBeg.2 ewBeg.2) (max resEnd.2 ewEnd.2))⌋ - margin,
     ⌊max (max (max resBeg.1 ewBeg.1) (max resEnd.1 ewEnd.1))
        (max (max resBeg.2 ewBeg.2) (max resEnd.2 ewEnd.2))⌋ + margin + 1)
  else
    (⌊min (min (min resBeg.1 ewBeg.1) (min resEnd.1 ewEnd.1))
        (min (min resBeg.2 ewBeg.2) (min resEnd.2 ewEnd.2))⌋ - margin,
     ⌊max (max (min resBeg.1 ewBeg.1) (min resEnd.1 ewEnd.1))
        (max (min resBeg.2 ewBeg.2) (min resEnd.2 ewEnd.2))⌋ + margin + 1)

/-- Claim C7 as amended holds: the code block equals the per-side
selection with truncation toward zero. -/
theorem compute_p_limits_combine_correct (resBeg resEnd ewBeg ewEnd : ℝ × ℝ)
    (vEndDotSource : ℝ) (margin : ℤ) :
    compute_p_limits_combine resBeg resEnd ewBeg ewEnd vEndDotSource margin =
      compute_p_limits_combine_spec resBeg resEnd ewBeg ewEnd
        vEndDotSource margin := by
  unfold compute_p_limits_combine compute_p_limits_combine_spec
  by_cases hd : (0:ℝ) ≤ vEndDotSource
  · rw [if_pos hd, if_neg (by norm_num : ¬ ((1:ℤ) < 0)),
      if_neg (not_lt.mpr hd)]
    rw [min_assoc, max_assoc]
  · rw [if_neg hd, if_pos (by norm_num : ((-1:ℤ) < 0)),
      if_pos (lt_of_not_le hd)]
    rw [min_assoc, max_assoc]

/-- Claim C7 as stated is false at a concrete input: with the begin
resolution pair (-1/2, 1), all other pairs (0, 1), sign positive and
margin 0, the minimum of the selected endpoints is -1/2; the code
truncates it toward zero giving lower bound 0, whereas the claimed floor
conversion gives -1. -/
theorem compute_p_limits_floor_fails :
    compute_p_limits_combine (-1/2, 1) (0, 1) (0, 1) (0, 1) 1 0 = (0, 2) ∧
    compute_p_limits_combine_floor (-1/2, 1) (0, 1) (0, 1) (0, 1) 1 0 =
      (-1, 2) ∧
    compute_p_limits_combine (-1/2, 1) (0, 1) (0, 1) (0, 1) 1 0 ≠
      compute_p_limits_combine_floor (-1/2, 1) (0, 1) (0, 1) (0, 1) 1 0 := by
  have h1 : compute_p_limits_combine (-1/2, 1) (0, 1) (0, 1) (0, 1) 1 0 =
      (0, 2) := by
    unfold compute_p_limits_combine
    rw [if_pos (by norm_num : (0:ℝ) ≤ 1), if_neg (by norm_num : ¬ ((1:ℤ) < 0))]
    unfold itrunc
    norm_num
  have h2 : compute_p_limits_combine_floor (-1/2, 1) (0, 1) (0, 1) (0, 1) 1 0 =
      (-1, 2) := by
    unfold compute_p_limits_combine_floor
    rw [if_neg (by norm_num : ¬ ((1:ℝ) < 0))]
    norm_num
  exact ⟨h1, h2, by rw [h1, h2]; simp⟩


/-! ## The ReekeIndexGenerator coroutine -/

/-- The interface of a ReekeModel instance as read by
ReekeIndexGenerator::next and next_pqr: the precomputed p limits, the
q_limits and r_limits member functions, and the permutation matrix. -/
structure RModel where
  pLimits : ℤ × ℤ
  qLimits : ℤ → ℤ × ℤ
  rLimits : ℤ → ℤ → List (ℤ × ℤ)
  perm : Fin 3 → Fin 3 → ℤ

/-- The static local variables of ReekeIndexGenerator::next_pqr. Because
they are declared static in the source, one single copy of this record is
shared by every generator instance in the program; it is zero-initialised.
mode false is the enter state and mode true the yield state. -/
structure GenState where
  p : ℤ × ℤ
  q : ℤ × ℤ
  r : List (ℤ × ℤ)
  ridx : ℕ
  mode : Bool

/-- The zero-initialised static block before the first call. -/
def initState : GenState := ⟨(0, 0), (0, 0), [], 0, false⟩

/-- The innermost for loop of next_pqr over r inside one interval:
advance r until a nonzero (p, q, r) triple is reached (returned without
the trailing increment, which happens on resumption) or the interval is
exhausted. -/
def rInner (p0 q0 r0 r1 : ℤ) : Option ℤ :=
  if r0 < r1 then
    if (p0, q0, r0) ≠ ((0:ℤ), (0:ℤ), (0:ℤ)) then some r0
    else rInner p0 q0 (r0 + 1) r1
  else none
termination_by (r1 - r0).toNat
decreasing_by omega

/-- Result of the loop over the r intervals: the r at which a triple is
yielded, if any, with the updated interval list and interval index. -/
structure RRes where
  found : Option ℤ
  r : List (ℤ × ℤ)
  ridx : ℕ

/-- The for loop of next_pqr over the r intervals. On a yield the current
interval records the loop variable; on exhaustion of an interval its
cursor has reached the upper bound and ridx advances. -/
def rLoop (p0 q0 : ℤ) (r : List (ℤ × ℤ)) (ridx : ℕ) : RRes :=
  if h : ridx < r.length then
    match rInner p0 q0 r[ridx].1 r[ridx].2 with
    | some rv => ⟨some rv, r.set ridx (rv, r[ridx].2), ridx⟩
    | none => rLoop p0 q0 (r.set ridx (r[ridx].2, r[ridx].2)) (ridx + 1)
  else ⟨none, r, ridx⟩
termination_by r.length - ridx
decreasing_by simp [List.length_set]; omega

/-- Result of the loop of next_pqr over q. -/
structure QRes where
  found : Option (ℤ × ℤ)
  q : ℤ × ℤ
  r : List (ℤ × ℤ)
  ridx : ℕ

/-- The for loop of next_pqr over q: at each q recompute the r intervals
(r = r_limits(p, q); ridx = 0) and search them. -/
def qLoop (m : RModel) (p0 q0 q1 : ℤ) (r : List (ℤ × ℤ)) (ridx : ℕ) :
    QRes :=
  if q0 < q1 then
    match rLoop p0 q0 (m.rLimits p0 q0) 0 with
    | ⟨some rv, r2, ridx2⟩ => ⟨some (q0, rv), (q0, q1), r2, ridx2⟩
    | ⟨none, r2, ridx2⟩ => qLoop m p0 (q0 + 1) q1 r2 ridx2
  else ⟨none, (q0, q1), r, ridx⟩
termination_by (q1 - q0).toNat
decreasing_by omega

/-- Result of the loop of next_pqr over p, carrying all static cursors. -/
structure StepRes where
  found : Option (ℤ × ℤ × ℤ)
  p : ℤ × ℤ
  q : ℤ × ℤ
  r : List (ℤ × ℤ)
  ridx : ℕ

/-- The outer for loop of next_pqr over p: at each p recompute the q
limits and search. -/
def pLoop (m : RModel) (p0 p1 : ℤ) (q : ℤ × ℤ) (r : List (ℤ × ℤ))
    (ridx : ℕ) : StepRes :=
  if p0 < p1 then
    match qLoop m p0 (m.qLimits p0).1 (m.qLimits p0).2 r ridx with
    | ⟨some (qv, rv), q2, r2, ridx2⟩ =>
        ⟨some (p0, qv, rv), (p0, p1), q2, r2, ridx2⟩
    | ⟨none, q2, r2, ridx2⟩ => pLoop m (p0 + 1) p1 q2 r2 ridx2
  else ⟨none, (p0, p1), q, r, ridx⟩
termination_by (p1 - p0).toNat
decreasing_by omega

/-- The increment of r[ridx][0] executed when control resumes after the
yield point. -/
def bumpr (r : List (ℤ × ℤ)) (ridx : ℕ) : List (ℤ × ℤ) :=
  if h : ridx < r.length then r.set ridx (r[ridx].1 + 1, r[ridx].2)
  else r

/-- ReekeIndexGenerator::next_pqr as a step function: from the shared
static state, produce the returned triple and the new static state. In
the enter state the p limits are fetched from the model and the nested
loops run from the start; in the yield state the loops resume at the
stored cursors (the innermost loop variable is incremented first), and
later limits are recomputed from the model of the instance on which the
call is made. On exhaustion the sentinel (0,0,0) is returned and the
state returns to enter. -/
def next_pqr (m : RModel) (s : GenState) : (ℤ × ℤ × ℤ) × GenState :=
  match s.mode with
  | false =>
    match pLoop m m.pLimits.1 m.pLimits.2 s.q s.r s.ridx with
    | ⟨some t, p2, q2, r2, ridx2⟩ => (t, ⟨p2, q2, r2, ridx2, true⟩)
    | ⟨none, p2, q2, r2, ridx2⟩ => ((0, 0, 0), ⟨p2, q2, r2, ridx2, false⟩)
  | true =>
    match rLoop s.p.1 s.q.1 (bumpr s.r s.ridx) s.ridx with
    | ⟨some rv, r2, ridx2⟩ =>
        ((s.p.1, s.q.1, rv), ⟨s.p, s.q, r2, ridx2, true⟩)
    | ⟨none, r2, ridx2⟩ =>
      match qLoop m s.p.1 (s.q.1 + 1) s.q.2 r2 ridx2 with
      | ⟨some (qv, rv), q2, r3, ridx3⟩ =>
          ((s.p.1, qv, rv), ⟨s.p, q2, r3, ridx3, true⟩)
      | ⟨none, q2, r3, ridx3⟩ =>
        match pLoop m (s.p.1 + 1) s.p.2 q2 r3 ridx3 with
        | ⟨some t, p2, q3, r4, ridx4⟩ => (t, ⟨p2, q3, r4, ridx4, true⟩)
        | ⟨none, p2, q3, r4, ridx4⟩ =>
            ((0, 0, 0), ⟨p2, q3, r4, ridx4, false⟩)

/-- Multiplication of a mat3 of ints by an integer triple. -/
def matMulVec (M : Fin 3 → Fin 3 → ℤ) (v : ℤ × ℤ × ℤ) : ℤ × ℤ × ℤ :=
  (M 0 0 * v.1 + M 0 1 * v.2.1 + M 0 2 * v.2.2,
   M 1 0 * v.1 + M 1 1 * v.2.1 + M 1 2 * v.2.2,
   M 2 0 * v.1 + M 2 1 * v.2.1 + M 2 2 * v.2.2)

/-- ReekeIndexGenerator::next: the permuted triple M * (p, q, r), where
the state s is the shared static block of next_pqr. -/
def reeke_next (m : RModel) (s : GenState) : (ℤ × ℤ × ℤ) × GenState :=
  (matMulVec m.perm (next_pqr m s).1, (next_pqr m s).2)


theorem rInner_some_ne_aux (p0 q0 : ℤ) :
    ∀ (n : ℕ) (r0 r1 rv : ℤ), (r1 - r0).toNat = n →
      rInner p0 q0 r0 r1 = some rv →
      (p0, q0, rv) ≠ ((0:ℤ), (0:ℤ), (0:ℤ)) := by
  intro n
  induction n using Nat.strong_induction_on with
  | _ n ih =>
    intro r0 r1 rv hn h
    rw [rInner] at h
    split_ifs at h with h1 h2
    · simp only [Option.some_inj] at h
      subst h
      exact h2
    · exact ih (r1 - (r0 + 1)).toNat (by omega) (r0 + 1) r1 rv rfl h

theorem rInner_some_ne {p0 q0 r0 r1 rv : ℤ}
    (h : rInner p0 q0 r0 r1 = some rv) :
    (p0, q0, rv) ≠ ((0:ℤ), (0:ℤ), (0:ℤ)) :=
  rInner_some_ne_aux p0 q0 (r1 - r0).toNat r0 r1 rv rfl h

theorem rLoop_some_ne_aux (p0 q0 : ℤ) :
    ∀ (n : ℕ) (r : List (ℤ × ℤ)) (ridx : ℕ) (rv : ℤ),
      r.length - ridx = n → (rLoop p0 q0 r ridx).found = some rv →
      (p0, q0, rv) ≠ ((0:ℤ), (0:ℤ), (0:ℤ)) := by
  intro n
  induction n using Nat.strong_induction_on with
  | _ n ih =>
    intro r ridx rv hn h
    rw [rLoop] at h
    by_cases hlen : ridx < r.length
    · rw [dif_pos hlen] at h
      cases hri : rInner p0 q0 r[ridx].1 r[ridx].2 with
      | some rv2 =>
        rw [hri] at h
        dsimp only at h
        simp only [Option.some_inj] at h
        subst h
        exact rInner_some_ne hri
      | none =>
        rw [hri] at h
        dsimp only at h
        exact ih ((r.set ridx (r[ridx].2, r[ridx].2)).length - (ridx + 1))
          (by rw [List.length_set]; omega) _ _ rv rfl h
    · rw [dif_neg hlen] at h
      simp at h

theorem rLoop_some_ne {p0 q0 : ℤ} {r : List (ℤ × ℤ)} {ridx : ℕ} {rv : ℤ}
    (h : (rLoop p0 q0 r ridx).found = some rv) :
    (p0, q0, rv) ≠ ((0:ℤ), (0:ℤ), (0:ℤ)) :=
  rLoop_some_ne_aux p0 q0 (r.length - ridx) r ridx rv rfl h

theorem qLoop_some_ne_aux (m : RModel) (p0 : ℤ) :
    ∀ (n : ℕ) (q0 q1 : ℤ) (r : List (ℤ × ℤ)) (i : ℕ) (qv rv : ℤ),
      (q1 - q0).toNat = n →
      (qLoop m p0 q0 q1 r i).found = some (qv, rv) →
      (p0, qv, rv) ≠ ((0:ℤ), (0:ℤ), (0:ℤ)) := by
  intro n
  induction n using Nat.strong_induction_on with
  | _ n ih =>
    intro q0 q1 r i qv rv hn h
    rw [qLoop] at h
    by_cases hq : q0 < q1
    · rw [if_pos hq] at h
      rcases hrl : rLoop p0 q0 (m.rLimits p0 q0) 0 with ⟨f, r2, i2⟩
      rw [hrl] at h
      cases f with
      | some rv2 =>
        dsimp only at h
        simp only [Option.some_inj, Prod.mk.injEq] at h
        obtain ⟨hq2, hr2⟩ := h
        have hfound : (rLoop p0 q0 (m.rLimits p0 q0) 0).found = some rv2 := by
          rw [hrl]
        have hne := rLoop_some_ne hfound
        rw [hq2, hr2] at hne
        exact hne
      | none =>
        dsimp only at h
        exact ih (q1 - (q0 + 1)).toNat (by omega) (q0 + 1) q1 r2 i2 qv rv
          rfl h
    · rw [if_neg hq] at h
      simp at h

theorem qLoop_some_ne {m : RModel} {p0 q0 q1 : ℤ} {r : List (ℤ × ℤ)}
    {i : ℕ} {qv rv : ℤ}
    (h : (qLoop m p0 q0 q1 r i).found = some (qv, rv)) :
    (p0, qv, rv) ≠ ((0:ℤ), (0:ℤ), (0:ℤ)) :=
  qLoop_some_ne_aux m p0 (q1 - q0).toNat q0 q1 r i qv rv rfl h

theorem pLoop_some_ne_aux (m : RModel) :
    ∀ (n : ℕ) (p0 p1 : ℤ) (q : ℤ × ℤ) (r : List (ℤ × ℤ)) (i : ℕ)
      (t : ℤ × ℤ × ℤ), (p1 - p0).toNat = n →
      (pLoop m p0 p1 q r i).found = some t →
      t ≠ ((0:ℤ), (0:ℤ), (0:ℤ)) := by
  intro n
  induction n using Nat.strong_induction_on with
  | _ n ih =>
    intro p0 p1 q r i t hn h
    rw [pLoop] at h
    by_cases hp : p0 < p1
    · rw [if_pos hp] at h
      rcases hql : qLoop m p0 (m.qLimits p0).1 (m.qLimits p0).2 r i with
        ⟨f, q2, r2, i2⟩
      rw [hql] at h
      cases f with
      | some qr =>
        rcases qr with ⟨qv, rv⟩
        dsimp only at h
        simp only [Option.some_inj] at h
        subst h
        have : (qLoop m p0 (m.qLimits p0).1 (m.qLimits p0).2 r i).found =
            some (qv, rv) := by rw [hql]
        exact qLoop_some_ne this
      | none =>
        dsimp only at h
        exact ih (p1 - (p0 + 1)).toNat (by omega) (p0 + 1) p1 q2 r2 i2 t
          rfl h
    · rw [if_neg hp] at h
      simp at h

theorem pLoop_some_ne {m : RModel} {p0 p1 : ℤ} {q : ℤ × ℤ}
    {r : List (ℤ × ℤ)} {i : ℕ} {t : ℤ × ℤ × ℤ}
    (h : (pLoop m p0 p1 q r i).found = some t) :
    t ≠ ((0:ℤ), (0:ℤ), (0:ℤ)) :=
  pLoop_some_ne_aux m (p1 - p0).toNat p0 p1 q r i t rfl h

theorem qLoop_indep (m : RModel) (p0 q0 q1 : ℤ) (r : List (ℤ × ℤ)) (i : ℕ)
    (r2 : List (ℤ × ℤ)) (i2 : ℕ) :
    (qLoop m p0 q0 q1 r i).found = (qLoop m p0 q0 q1 r2 i2).found ∧
    (qLoop m p0 q0 q1 r i).q = (qLoop m p0 q0 q1 r2 i2).q ∧
    ((qLoop m p0 q0 q1 r i).found ≠ none →
      qLoop m p0 q0 q1 r i = qLoop m p0 q0 q1 r2 i2) := by
  by_cases h : q0 < q1
  · rw [qLoop, qLoop, if_pos h, if_pos h]
    exact ⟨rfl, rfl, fun _ => rfl⟩
  · rw [qLoop, qLoop, if_neg h, if_neg h]
    exact ⟨rfl, rfl, fun hne => absurd rfl hne⟩

theorem pLoop_indep_aux (m : RModel) :
    ∀ (n : ℕ) (p0 p1 : ℤ) (q : ℤ × ℤ) (r : List (ℤ × ℤ)) (i : ℕ)
      (q2 : ℤ × ℤ) (r2 : List (ℤ × ℤ)) (i2 : ℕ), (p1 - p0).toNat = n →
      (pLoop m p0 p1 q r i).found = (pLoop m p0 p1 q2 r2 i2).found ∧
      ((pLoop m p0 p1 q r i).found ≠ none →
        pLoop m p0 p1 q r i = pLoop m p0 p1 q2 r2 i2) := by
  intro n
  induction n using Nat.strong_induction_on with
  | _ n ih =>
    intro p0 p1 q r i q2 r2 i2 hn
    by_cases hp : p0 < p1
    · rw [pLoop, pLoop, if_pos hp, if_pos hp]
      have hq := qLoop_indep m p0 (m.qLimits p0).1 (m.qLimits p0).2 r i r2 i2
      rcases hql : qLoop m p0 (m.qLimits p0).1 (m.qLimits p0).2 r i with
        ⟨f, qq, rr, ri⟩
      rcases hql2 : qLoop m p0 (m.qLimits p0).1 (m.qLimits p0).2 r2 i2 with
        ⟨f2, qq2, rr2, ri2⟩
      rw [hql, hql2] at hq
      dsimp only at hq
      obtain ⟨hf, hqq, hfull⟩ := hq
      cases f with
      | some qr =>
        have hrec := hfull (by simp)
        simp only [QRes.mk.injEq] at hrec
        obtain ⟨he1, he2, he3, he4⟩ := hrec
        rw [← he1, ← he2, ← he3, ← he4]
        rcases qr with ⟨qv, rv⟩
        exact ⟨rfl, fun _ => rfl⟩
      | none =>
        rw [← hf]
        dsimp only
        rw [← hqq]
        exact ih (p1 - (p0 + 1)).toNat (by omega) (p0 + 1) p1 qq rr ri
          qq rr2 ri2 rfl
    · rw [pLoop, pLoop, if_neg hp, if_neg hp]
      exact ⟨rfl, fun hne => absurd rfl hne⟩

theorem pLoop_indep (m : RModel) (p0 p1 : ℤ) (q : ℤ × ℤ)
    (r : List (ℤ × ℤ)) (i : ℕ) (q2 : ℤ × ℤ) (r2 : List (ℤ × ℤ)) (i2 : ℕ) :
    (pLoop m p0 p1 q r i).found = (pLoop m p0 p1 q2 r2 i2).found ∧
    ((pLoop m p0 p1 q r i).found ≠ none →
      pLoop m p0 p1 q r i = pLoop m p0 p1 q2 r2 i2) :=
  pLoop_indep_aux m (p1 - p0).toNat p0 p1 q r i q2 r2 i2 rfl

/-- The returned triple of next_pqr is nonzero exactly on the yield path:
a call either yields a nonzero triple and leaves the state in yield mode,
or returns the sentinel (0,0,0) and resets the state to enter mode. -/
theorem next_pqr_mode_spec (m : RModel) (s : GenState) :
    ((next_pqr m s).1 ≠ ((0:ℤ), (0:ℤ), (0:ℤ)) ∧
      (next_pqr m s).2.mode = true) ∨
    ((next_pqr m s).1 = ((0:ℤ), (0:ℤ), (0:ℤ)) ∧
      (next_pqr m s).2.mode = false) := by
  rcases s with ⟨sp, sq, sr, si, smode⟩
  cases smode
  · rw [next_pqr]
    rcases hpl : pLoop m m.pLimits.1 m.pLimits.2 sq sr si with
      ⟨f, p2, q2, r2, i2⟩
    cases f with
    | some t =>
      dsimp only
      refine Or.inl ⟨?_, rfl⟩
      exact pLoop_some_ne (by rw [hpl])
    | none => exact Or.inr ⟨rfl, rfl⟩
  · rw [next_pqr]
    rcases hrl : rLoop sp.1 sq.1 (bumpr sr si) si with ⟨f, r2, i2⟩
    cases f with
    | some rv =>
      dsimp only
      refine Or.inl ⟨?_, rfl⟩
      exact rLoop_some_ne (by rw [hrl])
    | none =>
      dsimp only
      rcases hql : qLoop m sp.1 (sq.1 + 1) sq.2 r2 i2 with ⟨f2, q3, r3, i3⟩
      cases f2 with
      | some qr =>
        rcases qr with ⟨qv, rv⟩
        dsimp only
        refine Or.inl ⟨?_, rfl⟩
        exact qLoop_some_ne (by rw [hql])
      | none =>
        dsimp only
        rcases hpl : pLoop m (sp.1 + 1) sp.2 q3 r3 i3 with ⟨f3, p4, q4, r4, i4⟩
        cases f3 with
        | some t =>
          dsimp only
          refine Or.inl ⟨?_, rfl⟩
          exact pLoop_some_ne (by rw [hpl])
        | none => exact Or.inr ⟨rfl, rfl⟩

/-- In the enter state the nested loops reinitialise every cursor, so the
returned triple does not depend on the stale cursor contents, and on a
yield the resulting states agree completely. -/
theorem next_pqr_enter_indep (m : RModel) (s s2 : GenState)
    (h : s.mode = false) (h2 : s2.mode = false) :
    (next_pqr m s).1 = (next_pqr m s2).1 ∧
    ((next_pqr m s).1 ≠ ((0:ℤ), (0:ℤ), (0:ℤ)) →
      next_pqr m s = next_pqr m s2) := by
  rcases s with ⟨sp, sq, sr, si, smode⟩
  rcases s2 with ⟨sp2, sq2, sr2, si2, smode2⟩
  dsimp only at h h2
  subst h
  subst h2
  rw [next_pqr, next_pqr]
  have hpl := pLoop_indep m m.pLimits.1 m.pLimits.2 sq sr si sq2 sr2 si2
  rcases hpl1 : pLoop m m.pLimits.1 m.pLimits.2 sq sr si with
    ⟨f, p2, q2, r2, i2⟩
  rcases hpl2 : pLoop m m.pLimits.1 m.pLimits.2 sq2 sr2 si2 with
    ⟨f2, p3, q3, r3, i3⟩
  rw [hpl1, hpl2] at hpl
  dsimp only at hpl
  obtain ⟨hf, hfull⟩ := hpl
  cases f with
  | some t =>
    have hrec := hfull (by simp)
    simp only [StepRes.mk.injEq] at hrec
    obtain ⟨he0, he1, he2, he3, he4⟩ := hrec
    rw [← he0, ← he1, ← he2, ← he3, ← he4]
    exact ⟨rfl, fun _ => rfl⟩
  | none =>
    rw [← hf]
    dsimp only
    exact ⟨rfl, fun hne => absurd rfl hne⟩


theorem matMulVec_zero (M : Fin 3 → Fin 3 → ℤ) :
    matMulVec M ((0:ℤ), (0:ℤ), (0:ℤ)) = ((0:ℤ), (0:ℤ), (0:ℤ)) := by
  simp [matMulVec]

/-- Claim C1 as amended: when next() returns the sentinel (0,0,0) the
shared state has been reset to the enter state, so the following call
does not keep returning the sentinel but behaves exactly like the first
call on a freshly initialised generator state: the traversal restarts. -/
theorem reeke_next_sentinel_resets (m : RModel) (s : GenState)
    (h : (next_pqr m s).1 = ((0:ℤ), (0:ℤ), (0:ℤ))) :
    (reeke_next m s).1 = ((0:ℤ), (0:ℤ), (0:ℤ)) ∧
    (reeke_next m s).2.mode = false ∧
    (reeke_next m (reeke_next m s).2).1 = (reeke_next m initState).1 := by
  have hmode : (next_pqr m s).2.mode = false := by
    rcases next_pqr_mode_spec m s with ⟨hne, _⟩ | ⟨_, hm⟩
    · exact absurd h hne
    · exact hm
  refine ⟨?_, hmode, ?_⟩
  · rw [reeke_next, h, matMulVec_zero]
  · rw [reeke_next, reeke_next, reeke_next]
    exact congrArg (matMulVec m.perm)
      (next_pqr_enter_indep m (next_pqr m s).2 initState hmode rfl).1

/-- Claim C2 as amended, positive part: the output of next() is a
function of the instance model (determined by the constructor arguments)
and of the shared static state; whenever the shared state is in the enter
state, the call begins a fresh traversal whose result is independent of
the stale cursor contents. -/
theorem reeke_next_fresh_of_enter (m : RModel) (s s2 : GenState)
    (h : s.mode = false) (h2 : s2.mode = false) :
    (reeke_next m s).1 = (reeke_next m s2).1 := by
  rw [reeke_next, reeke_next]
  exact congrArg (matMulVec m.perm) (next_pqr_enter_indep m s s2 h h2).1

/-- The identity permutation matrix. -/
def idp : Fin 3 → Fin 3 → ℤ := fun i j => if i = j then 1 else 0

/-- A model whose traversal is empty (empty p range). -/
def mEmpty : RModel := ⟨(0, 0), fun _ => (0, 1), fun _ _ => [(0, 1)], idp⟩

/-- A model whose traversal consists of the single triple (1, 0, 0). -/
def mOne : RModel := ⟨(1, 2), fun _ => (0, 1), fun _ _ => [(0, 1)], idp⟩

/-- A model on (0,0,0)-(0,0,1): the zero triple is skipped. -/
def mOneB : RModel := ⟨(0, 2), fun _ => (0, 1), fun _ _ => [(0, 2)], idp⟩

/-- A model whose fresh traversal starts at p = 5. -/
def mTwo : RModel := ⟨(5, 6), fun _ => (0, 1), fun _ _ => [(0, 1)], idp⟩

theorem ev_rInner_a : rInner 1 0 0 1 = some 0 := by
  rw [rInner, if_pos (by norm_num : (0:ℤ) < 1),
    if_pos (by simp : ((1:ℤ), (0:ℤ), (0:ℤ)) ≠ ((0:ℤ), (0:ℤ), (0:ℤ)))]

theorem ev_rLoop_a : rLoop 1 0 [(0, 1)] 0 = ⟨some 0, [(0, 1)], 0⟩ := by
  rw [rLoop, dif_pos (by simp : (0:ℕ) < ([((0:ℤ), (1:ℤ))]).length)]
  simp only [List.getElem_cons_zero]
  rw [ev_rInner_a]
  simp [List.set_cons_zero]

theorem ev_qLoop_a (r : List (ℤ × ℤ)) (i : ℕ) :
    qLoop mOne 1 0 1 r i = ⟨some (0, 0), (0, 1), [(0, 1)], 0⟩ := by
  rw [qLoop, if_pos (by norm_num : (0:ℤ) < 1)]
  rw [show mOne.rLimits 1 0 = [(0, 1)] from rfl, ev_rLoop_a]

theorem ev_pLoop_a (q : ℤ × ℤ) (r : List (ℤ × ℤ)) (i : ℕ) :
    pLoop mOne 1 2 q r i = ⟨some (1, 0, 0), (1, 2), (0, 1), [(0, 1)], 0⟩ := by
  rw [pLoop, if_pos (by norm_num : (1:ℤ) < 2)]
  rw [show (mOne.qLimits 1).1 = 0 from rfl,
    show (mOne.qLimits 1).2 = 1 from rfl, ev_qLoop_a]

theorem ev_step1 : next_pqr mOne initState =
    ((1, 0, 0), ⟨(1, 2), (0, 1), [(0, 1)], 0, true⟩) := by
  rw [show next_pqr mOne initState =
    next_pqr mOne ⟨(0, 0), (0, 0), [], 0, false⟩ from rfl]
  rw [next_pqr]
  rw [show mOne.pLimits.1 = 1 from rfl, show mOne.pLimits.2 = 2 from rfl]
  rw [ev_pLoop_a]

theorem matMulVec_idp (v : ℤ × ℤ × ℤ) : matMulVec idp v = v := by
  simp [matMulVec, idp, Fin.ext_iff]

theorem ev_rInner_b : rInner 1 0 1 1 = none := by
  rw [rInner, if_neg (by norm_num : ¬ (1:ℤ) < 1)]

theorem ev_bumpr : bumpr [(0, 1)] 0 = [(1, 1)] := by
  rw [bumpr, dif_pos (by simp : (0:ℕ) < ([((0:ℤ), (1:ℤ))]).length)]
  simp [List.getElem_cons_zero, List.set_cons_zero]

theorem ev_rLoop_b : rLoop 1 0 [(1, 1)] 0 = ⟨none, [(1, 1)], 1⟩ := by
  rw [rLoop, dif_pos (by simp : (0:ℕ) < ([((1:ℤ), (1:ℤ))]).length)]
  simp only [List.getElem_cons_zero]
  rw [ev_rInner_b]
  show rLoop 1 0 ([(1, 1)].set 0 (1, 1)) (0 + 1) = _
  rw [rLoop, dif_neg (by simp : ¬ (0 + 1 : ℕ) <
    (([((1:ℤ), (1:ℤ))]).set 0 (1, 1)).length)]
  simp [List.set_cons_zero]

theorem ev_qLoop_b : qLoop mOne 1 1 1 [(1, 1)] 1 =
    ⟨none, (1, 1), [(1, 1)], 1⟩ := by
  rw [qLoop, if_neg (by norm_num : ¬ (1:ℤ) < 1)]

theorem ev_pLoop_b : pLoop mOne 2 2 (1, 1) [(1, 1)] 1 =
    ⟨none, (2, 2), (1, 1), [(1, 1)], 1⟩ := by
  rw [pLoop, if_neg (by norm_num : ¬ (2:ℤ) < 2)]

theorem ev_step2 : next_pqr mOne ⟨(1, 2), (0, 1), [(0, 1)], 0, true⟩ =
    ((0, 0, 0), ⟨(2, 2), (1, 1), [(1, 1)], 1, false⟩) := by
  rw [next_pqr]
  dsimp only
  rw [ev_bumpr, ev_rLoop_b]
  dsimp only
  rw [show ((0:ℤ) + 1) = 1 by norm_num, ev_qLoop_b]
  dsimp only
  rw [show ((1:ℤ) + 1) = 2 by norm_num, ev_pLoop_b]

theorem ev_step3 : next_pqr mOne ⟨(2, 2), (1, 1), [(1, 1)], 1, false⟩ =
    ((1, 0, 0), ⟨(1, 2), (0, 1), [(0, 1)], 0, true⟩) := by
  rw [next_pqr]
  dsimp only
  rw [show mOne.pLimits.1 = 1 from rfl, show mOne.pLimits.2 = 2 from rfl]
  rw [ev_pLoop_a]

/-- Claim C1 as stated is false at a concrete model: with a traversal
consisting of the single triple (1,0,0), the second call on the shared
state returns the sentinel but the third call returns (1,0,0) again. -/
theorem reeke_next_sentinel_not_forever :
    (reeke_next mOne ((reeke_next mOne initState).2)).1 =
      ((0:ℤ), (0:ℤ), (0:ℤ)) ∧
    (reeke_next mOne ((reeke_next mOne
      ((reeke_next mOne initState).2)).2)).1 = ((1:ℤ), (0:ℤ), (0:ℤ)) ∧
    ((1:ℤ), (0:ℤ), (0:ℤ)) ≠ ((0:ℤ), (0:ℤ), (0:ℤ)) := by
  have h1 : reeke_next mOne initState =
      ((1, 0, 0), ⟨(1, 2), (0, 1), [(0, 1)], 0, true⟩) := by
    rw [reeke_next, ev_step1]
    dsimp only
    rw [show mOne.perm = idp from rfl, matMulVec_idp]
  have h2 : reeke_next mOne ⟨(1, 2), (0, 1), [(0, 1)], 0, true⟩ =
      ((0, 0, 0), ⟨(2, 2), (1, 1), [(1, 1)], 1, false⟩) := by
    rw [reeke_next, ev_step2]
    dsimp only
    rw [matMulVec_zero]
  have h3 : reeke_next mOne ⟨(2, 2), (1, 1), [(1, 1)], 1, false⟩ =
      ((1, 0, 0), ⟨(1, 2), (0, 1), [(0, 1)], 0, true⟩) := by
    rw [reeke_next, ev_step3]
    dsimp only
    rw [show mOne.perm = idp from rfl, matMulVec_idp]
  refine ⟨?_, ?_, by simp⟩
  · rw [h1]
    dsimp only
    rw [h2]
  · rw [h1]
    dsimp only
    rw [h2]
    dsimp only
    rw [h3]

theorem ev_empty : next_pqr mEmpty initState =
    ((0, 0, 0), ⟨(0, 0), (0, 0), [], 0, false⟩) := by
  rw [show next_pqr mEmpty initState =
    next_pqr mEmpty ⟨(0, 0), (0, 0), [], 0, false⟩ from rfl]
  rw [next_pqr]
  rw [show mEmpty.pLimits.1 = 0 from rfl, show mEmpty.pLimits.2 = 0 from rfl]
  rw [pLoop, if_neg (by norm_num : ¬ (0:ℤ) < 0)]

theorem reeke_next_sentinel_resets_witness :
    (next_pqr mEmpty initState).1 = ((0:ℤ), (0:ℤ), (0:ℤ)) ∧
    ((reeke_next mEmpty initState).1 = ((0:ℤ), (0:ℤ), (0:ℤ)) ∧
     (reeke_next mEmpty initState).2.mode = false ∧
     (reeke_next mEmpty (reeke_next mEmpty initState).2).1 =
       (reeke_next mEmpty initState).1) := by
  have h : (next_pqr mEmpty initState).1 = ((0:ℤ), (0:ℤ), (0:ℤ)) := by
    rw [ev_empty]
  exact ⟨h, reeke_next_sentinel_resets mEmpty initState h⟩

theorem reeke_next_fresh_of_enter_witness :
    ((⟨(1, 2), (0, 1), [(0, 1)], 0, false⟩ : GenState).mode = false ∧
     initState.mode = false) ∧
    (reeke_next mOne ⟨(1, 2), (0, 1), [(0, 1)], 0, false⟩).1 =
      (reeke_next mOne initState).1 :=
  ⟨⟨rfl, rfl⟩, reeke_next_fresh_of_enter mOne _ initState rfl rfl⟩

theorem ev_rInner_c1 : rInner 0 0 1 2 = some 1 := by
  rw [rInner, if_pos (by norm_num : (1:ℤ) < 2),
    if_pos (by simp : ((0:ℤ), (0:ℤ), (1:ℤ)) ≠ ((0:ℤ), (0:ℤ), (0:ℤ)))]

theorem ev_rInner_c : rInner 0 0 0 2 = some 1 := by
  rw [rInner, if_pos (by norm_num : (0:ℤ) < 2),
    if_neg (by simp : ¬ ((0:ℤ), (0:ℤ), (0:ℤ)) ≠ ((0:ℤ), (0:ℤ), (0:ℤ)))]
  rw [show ((0:ℤ) + 1) = 1 by norm_num, ev_rInner_c1]

theorem ev_rLoop_c : rLoop 0 0 [(0, 2)] 0 = ⟨some 1, [(1, 2)], 0⟩ := by
  rw [rLoop, dif_pos (by simp : (0:ℕ) < ([((0:ℤ), (2:ℤ))]).length)]
  simp only [List.getElem_cons_zero]
  rw [ev_rInner_c]
  simp [List.set_cons_zero]

theorem ev_qLoop_c (r : List (ℤ × ℤ)) (i : ℕ) :
    qLoop mOneB 0 0 1 r i = ⟨some (0, 1), (0, 1), [(1, 2)], 0⟩ := by
  rw [qLoop, if_pos (by norm_num : (0:ℤ) < 1)]
  rw [show mOneB.rLimits 0 0 = [(0, 2)] from rfl, ev_rLoop_c]

theorem ev_pLoop_c (q : ℤ × ℤ) (r : List (ℤ × ℤ)) (i : ℕ) :
    pLoop mOneB 0 2 q r i = ⟨some (0, 0, 1), (0, 2), (0, 1), [(1, 2)], 0⟩ := by
  rw [pLoop, if_pos (by norm_num : (0:ℤ) < 2)]
  rw [show (mOneB.qLimits 0).1 = 0 from rfl,
    show (mOneB.qLimits 0).2 = 1 from rfl, ev_qLoop_c]

theorem ev_step_c : next_pqr mOneB initState =
    ((0, 0, 1), ⟨(0, 2), (0, 1), [(1, 2)], 0, true⟩) := by
  rw [show next_pqr mOneB initState =
    next_pqr mOneB ⟨(0, 0), (0, 0), [], 0, false⟩ from rfl]
  rw [next_pqr]
  rw [show mOneB.pLimits.1 = 0 from rfl, show mOneB.pLimits.2 = 2 from rfl]
  rw [ev_pLoop_c]

theorem ev_bumpr_c : bumpr [(1, 2)] 0 = [(2, 2)] := by
  rw [bumpr, dif_pos (by simp : (0:ℕ) < ([((1:ℤ), (2:ℤ))]).length)]
  simp [List.getElem_cons_zero, List.set_cons_zero]

theorem ev_rInner_d : rInner 0 0 2 2 = none := by
  rw [rInner, if_neg (by norm_num : ¬ (2:ℤ) < 2)]

theorem ev_rLoop_d : rLoop 0 0 [(2, 2)] 0 = ⟨none, [(2, 2)], 1⟩ := by
  rw [rLoop, dif_pos (by simp : (0:ℕ) < ([((2:ℤ), (2:ℤ))]).length)]
  simp only [List.getElem_cons_zero]
  rw [ev_rInner_d]
  show rLoop 0 0 ([(2, 2)].set 0 (2, 2)) (0 + 1) = _
  rw [rLoop, dif_neg (by simp : ¬ (0 + 1 : ℕ) <
    (([((2:ℤ), (2:ℤ))]).set 0 (2, 2)).length)]
  simp [List.set_cons_zero]

theorem ev_qLoop_d : qLoop mTwo 0 1 1 [(2, 2)] 1 =
    ⟨none, (1, 1), [(2, 2)], 1⟩ := by
  rw [qLoop, if_neg (by norm_num : ¬ (1:ℤ) < 1)]

theorem ev_qLoop_e (r : List (ℤ × ℤ)) (i : ℕ) :
    qLoop mTwo 1 0 1 r i = ⟨some (0, 0), (0, 1), [(0, 1)], 0⟩ := by
  rw [qLoop, if_pos (by norm_num : (0:ℤ) < 1)]
  rw [show mTwo.rLimits 1 0 = [(0, 1)] from rfl, ev_rLoop_a]

theorem ev_pLoop_e (q : ℤ × ℤ) (r : List (ℤ × ℤ)) (i : ℕ) :
    pLoop mTwo 1 2 q r i = ⟨some (1, 0, 0), (1, 2), (0, 1), [(0, 1)], 0⟩ := by
  rw [pLoop, if_pos (by norm_num : (1:ℤ) < 2)]
  rw [show (mTwo.qLimits 1).1 = 0 from rfl,
    show (mTwo.qLimits 1).2 = 1 from rfl, ev_qLoop_e]

theorem ev_step_d : next_pqr mTwo ⟨(0, 2), (0, 1), [(1, 2)], 0, true⟩ =
    ((1, 0, 0), ⟨(1, 2), (0, 1), [(0, 1)], 0, true⟩) := by
  rw [next_pqr]
  dsimp only
  rw [ev_bumpr_c, ev_rLoop_d]
  dsimp only
  rw [show ((0:ℤ) + 1) = 1 by norm_num, ev_qLoop_d]
  dsimp only
  rw [ev_pLoop_e]

theorem ev_rInner_f : rInner 5 0 0 1 = some 0 := by
  rw [rInner, if_pos (by norm_num : (0:ℤ) < 1),
    if_pos (by simp : ((5:ℤ), (0:ℤ), (0:ℤ)) ≠ ((0:ℤ), (0:ℤ), (0:ℤ)))]

theorem ev_rLoop_f : rLoop 5 0 [(0, 1)] 0 = ⟨some 0, [(0, 1)], 0⟩ := by
  rw [rLoop, dif_pos (by simp : (0:ℕ) < ([((0:ℤ), (1:ℤ))]).length)]
  simp only [List.getElem_cons_zero]
  rw [ev_rInner_f]
  simp [List.set_cons_zero]

theorem ev_qLoop_f (r : List (ℤ × ℤ)) (i : ℕ) :
    qLoop mTwo 5 0 1 r i = ⟨some (0, 0), (0, 1), [(0, 1)], 0⟩ := by
  rw [qLoop, if_pos (by norm_num : (0:ℤ) < 1)]
  rw [show mTwo.rLimits 5 0 = [(0, 1)] from rfl, ev_rLoop_f]

theorem ev_pLoop_f (q : ℤ × ℤ) (r : List (ℤ × ℤ)) (i : ℕ) :
    pLoop mTwo 5 6 q r i = ⟨some (5, 0, 0), (5, 6), (0, 1), [(0, 1)], 0⟩ := by
  rw [pLoop, if_pos (by norm_num : (5:ℤ) < 6)]
  rw [show (mTwo.qLimits 5).1 = 0 from rfl,
    show (mTwo.qLimits 5).2 = 1 from rfl, ev_qLoop_f]

theorem ev_step_e : next_pqr mTwo initState =
    ((5, 0, 0), ⟨(5, 6), (0, 1), [(0, 1)], 0, true⟩) := by
  rw [show next_pqr mTwo initState =
    next_pqr mTwo ⟨(0, 0), (0, 0), [], 0, false⟩ from rfl]
  rw [next_pqr]
  rw [show mTwo.pLimits.1 = 5 from rfl, show mTwo.pLimits.2 = 6 from rfl]
  rw [ev_pLoop_f]

/-- Claim C2 as stated is false at concrete models: the static coroutine
state is shared between instances, so after one call on a generator with
model mOneB, the first call on a freshly constructed generator with model
mTwo resumes the stale cursors and returns (1,0,0) instead of the (5,0,0)
that a fresh traversal of mTwo produces. -/
theorem reeke_next_cross_instance_interference :
    (reeke_next mTwo initState).1 = ((5:ℤ), (0:ℤ), (0:ℤ)) ∧
    (reeke_next mTwo ((reeke_next mOneB initState).2)).1 =
      ((1:ℤ), (0:ℤ), (0:ℤ)) ∧
    (reeke_next mTwo ((reeke_next mOneB initState).2)).1 ≠
      (reeke_next mTwo initState).1 := by
  have h1 : reeke_next mTwo initState =
      ((5, 0, 0), ⟨(5, 6), (0, 1), [(0, 1)], 0, true⟩) := by
    rw [reeke_next, ev_step_e]
    dsimp only
    rw [show mTwo.perm = idp from rfl, matMulVec_idp]
  have h2 : reeke_next mOneB initState =
      ((0, 0, 1), ⟨(0, 2), (0, 1), [(1, 2)], 0, true⟩) := by
    rw [reeke_next, ev_step_c]
    dsimp only
    rw [show mOneB.perm = idp from rfl, matMulVec_idp]
  have h3 : reeke_next mTwo ⟨(0, 2), (0, 1), [(1, 2)], 0, true⟩ =
      ((1, 0, 0), ⟨(1, 2), (0, 1), [(0, 1)], 0, true⟩) := by
    rw [reeke_next, ev_step_d]
    dsimp only
    rw [show mTwo.perm = idp from rfl, matMulVec_idp]
  refine ⟨by rw [h1], ?_, ?_⟩
  · rw [h2]
    dsimp only
    rw [h3]
  · rw [h2]
    dsimp only
    rw [h3, h1]
    dsimp only
    simp


/-! ## The axis permutation (reeke_detail::permute_axes) -/

/-- Length of a 3-vector. -/
def norm3 (v : Vec3) : ℝ :=
  Real.sqrt (v.1 * v.1 + v.2.1 * v.2.1 + v.2.2 * v.2.2)

/-- scitbx vec3 normalize: division by the length. -/
def normalize3 (v : Vec3) : Vec3 :=
  (v.1 / norm3 v, v.2.1 / norm3 v, v.2.2 / norm3 v)

/-- Column j of a row-major mat3 (ub[j], ub[j+3], ub[j+6]). -/
def ubCol (ub : Fin 3 → Fin 3 → ℝ) (j : Fin 3) : Vec3 :=
  (ub 0 j, ub 1 j, ub 2 j)

/-- The normalized reciprocal lattice directions (columns of UB). -/
def rl_dir (ub : Fin 3 → Fin 3 → ℝ) (j : Fin 3) : Vec3 :=
  normalize3 (ubCol ub j)

/-- af::max_index on three values: first maximum wins, as in the scitbx
loop that only replaces the index on a strict improvement. -/
def maxIdx3 (a b c : ℝ) : Fin 3 :=
  if b > a then (if c > b then 2 else 1) else (if c > a then 2 else 0)

/-- Swapping the entries at positions i and j of an index array. -/
def swapAt (f : Fin 3 → Fin 3) (i j : Fin 3) : Fin 3 → Fin 3 := fun k =>
  if k = i then f j else if k = j then f i else f k

/-- The index of the reciprocal axis closest to the source direction. -/
def p_index (ub : Fin 3 → Fin 3 → ℝ) (source : Vec3) : Fin 3 :=
  maxIdx3 (abs (dot3 (rl_dir ub 0) source))
    (abs (dot3 (rl_dir ub 1) source))
    (abs (dot3 (rl_dir ub 2) source))

/-- The index array after the first swap (p axis into place 0). -/
def idx_after_p (ub : Fin 3 → Fin 3 → ℝ) (source : Vec3) : Fin 3 → Fin 3 :=
  swapAt (fun k => k) 0 (p_index ub source)

/-- The position (r_index + 1) of the remaining axis closest to the
rotation axis (af::max_index on two values, first maximum wins). -/
def r_swap_pos (ub : Fin 3 → Fin 3 → ℝ) (axis source : Vec3) : Fin 3 :=
  if abs (dot3 (rl_dir ub (idx_after_p ub source 2)) axis) >
     abs (dot3 (rl_dir ub (idx_after_p ub source 1)) axis) then 2 else 1

/-- reeke_detail::permute_axes: the final index array. -/
def permute_axes_index (ub : Fin 3 → Fin 3 → ℝ) (axis source : Vec3) :
    Fin 3 → Fin 3 :=
  swapAt (idx_after_p ub source) 2 (r_swap_pos ub axis source)

/-- reeke_detail::permute_axes: the permutation matrix, with
permutation[3 * index[k] + k] = 1 (row index[k], column k). -/
def permute_axes_matrix (ub : Fin 3 → Fin 3 → ℝ) (axis source : Vec3) :
    Fin 3 → Fin 3 → ℤ := fun r c =>
  if r = permute_axes_index ub axis source c then 1 else 0

theorem swapAt_swapAt_bijective (pi rp : Fin 3) :
    Function.Bijective (swapAt (swapAt (fun k => k) 0 pi) 2 rp) := by
  revert pi rp
  decide

theorem swap_matrix_zero_iff (pi rp : Fin 3) (v : ℤ × ℤ × ℤ) :
    matMulVec (fun r c =>
        if r = swapAt (swapAt (fun k => k) 0 pi) 2 rp c then (1:ℤ) else 0)
      v = ((0:ℤ), (0:ℤ), (0:ℤ)) ↔ v = ((0:ℤ), (0:ℤ), (0:ℤ)) := by
  fin_cases pi <;> fin_cases rp <;>
    simp [matMulVec, swapAt, Fin.ext_iff, Prod.ext_iff] <;>
    omega

/-- Claim C3: the permutation produced by permute_axes is a bijection of
the three axes, its 0/1 matrix sends only the zero triple to the zero
triple (so the emitted (h,k,l) = M (p,q,r) is zero exactly when the
triple is zero), and next_pqr itself yields only nonzero triples, the
zero triple being returned only on the sentinel path that resets the
state. -/
theorem permute_axes_bijection_and_zero_sentinel
    (ub : Fin 3 → Fin 3 → ℝ) (axis source : Vec3) :
    Function.Bijective (permute_axes_index ub axis source) ∧
    (∀ v : ℤ × ℤ × ℤ,
      matMulVec (permute_axes_matrix ub axis source) v =
        ((0:ℤ), (0:ℤ), (0:ℤ)) ↔ v = ((0:ℤ), (0:ℤ), (0:ℤ))) ∧
    (∀ (m : RModel) (s : GenState),
      ((next_pqr m s).1 ≠ ((0:ℤ), (0:ℤ), (0:ℤ)) ∧
        (next_pqr m s).2.mode = true) ∨
      ((next_pqr m s).1 = ((0:ℤ), (0:ℤ), (0:ℤ)) ∧
        (next_pqr m s).2.mode = false)) := by
  refine ⟨?_, ?_, fun m s => next_pqr_mode_spec m s⟩
  · exact swapAt_swapAt_bijective (p_index ub source)
      (r_swap_pos ub axis source)
  · intro v
    exact swap_matrix_zero_iff (p_index ub source)
      (r_swap_pos ub axis source) v

end

section ReflectionPredictor

/-! ## The reflection predictors (reflection_predictor.h)

The external collaborators (ray predictor, detector, scan) are interfaces
only; following the spec they are modelled as function-valued fields.
Double-precision values that are merely passed through are modelled as
rationals to keep this part executable. -/

/-- A Miller index. -/
abbrev Miller : Type := ℤ × ℤ × ℤ

/-- A 3x3 matrix over the rationals. -/
abbrev Mat3Q : Type := Fin 3 → Fin 3 → ℚ

/-- A diffracted ray as returned by the ray predictor: s1 vector,
rotation angle and entering flag (spec 6, external collaborator
contracts). -/
structure Ray where
  s1 : ℚ × ℚ × ℚ
  angle : ℚ
  entering : Bool
deriving DecidableEq

/-- Modelled from the spec: the collaborators read by
ScanStaticReflectionPredictor::append_for_index (the per-hkl variant).
predictRays is the ScanStaticRayPredictor (up to two rays);
panelIntersect is detector_[panel].get_ray_intersection, returning none
where the C++ throws dxtbx::error; mmToPixel is millimeter_to_pixel;
arrayIndexFromAngle is scan_.get_array_index_from_angle; oscStep is
scan_.get_oscillation()[1]. -/
structure StaticEnv where
  predictRays : Miller → Mat3Q → List Ray
  panelIntersect : ℕ → ℚ × ℚ × ℚ → Option (ℚ × ℚ)
  mmToPixel : ℕ → ℚ × ℚ → ℚ × ℚ
  arrayIndexFromAngle : ℚ → ℚ
  oscStep : ℚ

/-- The af::Predicted flag bit; only set versus unset (0) matters here. -/
def af_Predicted : ℕ := 1

/-- The columns of prediction_data. -/
structure PredData where
  hkl : List Miller
  panel : List ℕ
  enter : List Bool
  s1 : List (ℚ × ℚ × ℚ)
  xyzPx : List (ℚ × ℚ × ℚ)
  xyzMm : List (ℚ × ℚ × ℚ)
  flags : List ℕ
deriving DecidableEq

/-- One output row. -/
structure Row where
  hkl : Miller
  enter : Bool
  panel : ℕ
  s1 : ℚ × ℚ × ℚ
  xyzMm : ℚ × ℚ × ℚ
  xyzPx : ℚ × ℚ × ℚ
  flags : ℕ
deriving DecidableEq

/-- Appending one row to the columns. -/
def pushRow (p : PredData) (row : Row) : PredData :=
  ⟨p.hkl ++ [row.hkl], p.panel ++ [row.panel], p.enter ++ [row.enter],
   p.s1 ++ [row.s1], p.xyzPx ++ [row.xyzPx], p.xyzMm ++ [row.xyzMm],
   p.flags ++ [row.flags]⟩

/-- The empty prediction table. -/
def emptyPred : PredData := ⟨[], [], [], [], [], [], []⟩

/-- ScanStaticReflectionPredictor::append_for_index (the variant taking
entering and panel): push hkl, entering and panel; take the first
predicted ray whose entering flag matches; on a panel intersection push
the millimetre and pixel coordinates with the angle and fractional frame
in the z components and set the Predicted flag; on a throw push zero x,y
with the angle and frame and flags 0; with no matching ray push
all-zero s1 and coordinates and flags 0. -/
def append_for_index (env : StaticEnv) (p : PredData) (ub : Mat3Q)
    (h : Miller) (entering : Bool) (panel : ℕ) : PredData :=
  match (env.predictRays h ub).find? (fun ray => ray.entering == entering)
    with
  | some ray =>
    match env.panelIntersect panel ray.s1 with
    | some mm =>
      ⟨p.hkl ++ [h], p.panel ++ [panel], p.enter ++ [entering],
       p.s1 ++ [ray.s1],
       p.xyzPx ++ [((env.mmToPixel panel mm).1, (env.mmToPixel panel mm).2,
         env.arrayIndexFromAngle ray.angle)],
       p.xyzMm ++ [(mm.1, mm.2, ray.angle)],
       p.flags ++ [af_Predicted]⟩
    | none =>
      ⟨p.hkl ++ [h], p.panel ++ [panel], p.enter ++ [entering],
       p.s1 ++ [ray.s1],
       p.xyzPx ++ [(0, 0, env.arrayIndexFromAngle ray.angle)],
       p.xyzMm ++ [(0, 0, ray.angle)],
       p.flags ++ [0]⟩
  | none =>
    ⟨p.hkl ++ [h], p.panel ++ [panel], p.enter ++ [entering],
     p.s1 ++ [(0, 0, 0)],
     p.xyzPx ++ [(0, 0, 0)],
     p.xyzMm ++ [(0, 0, 0)],
     p.flags ++ [0]⟩

/-- The single row produced by append_for_index. -/
def rowFor (env : StaticEnv) (ub : Mat3Q) (h : Miller) (entering : Bool)
    (panel : ℕ) : Row :=
  match (env.predictRays h ub).find? (fun ray => ray.entering == entering)
    with
  | some ray =>
    match env.panelIntersect panel ray.s1 with
    | some mm =>
      ⟨h, entering, panel, ray.s1, (mm.1, mm.2, ray.angle),
       ((env.mmToPixel panel mm).1, (env.mmToPixel panel mm).2,
        env.arrayIndexFromAngle ray.angle), af_Predicted⟩
    | none =>
      ⟨h, entering, panel, ray.s1, (0, 0, ray.angle),
       (0, 0, env.arrayIndexFromAngle ray.angle), 0⟩
  | none => ⟨h, entering, panel, (0, 0, 0), (0, 0, 0), (0, 0, 0), 0⟩

theorem append_for_index_eq_pushRow (env : StaticEnv) (p : PredData)
    (ub : Mat3Q) (h : Miller) (entering : Bool) (panel : ℕ) :
    append_for_index env p ub h entering panel =
      pushRow p (rowFor env ub h entering panel) := by
  unfold append_for_index rowFor pushRow
  cases (env.predictRays h ub).find? (fun ray => ray.entering == entering)
    with
  | some ray =>
    dsimp only
    cases env.panelIntersect panel ray.s1 <;> rfl
  | none => rfl

/-- The loop of for_hkl_with_individual_ub over the requests. -/
def build_rows (env : StaticEnv) :
    PredData → List Miller → List Bool → List ℕ → List Mat3Q → PredData
  | p, h :: hs, e :: es, pa :: pas, ub :: ubs =>
      build_rows env (append_for_index env p ub h e pa) hs es pas ubs
  | p, _, _, _, _ => p

/-- The rows produced by the loop. -/
def rowsFor (env : StaticEnv) :
    List Miller → List Bool → List ℕ → List Mat3Q → List Row
  | h :: hs, e :: es, pa :: pas, ub :: ubs =>
      rowFor env ub h e pa :: rowsFor env hs es pas ubs
  | _, _, _, _ => []

/-- Appending a list of rows to the columns. -/
def pushRows (p : PredData) (rows : List Row) : PredData :=
  ⟨p.hkl ++ rows.map Row.hkl, p.panel ++ rows.map Row.panel,
   p.enter ++ rows.map Row.enter, p.s1 ++ rows.map Row.s1,
   p.xyzPx ++ rows.map Row.xyzPx, p.xyzMm ++ rows.map Row.xyzMm,
   p.flags ++ rows.map Row.flags⟩

/-- ScanStaticReflectionPredictor::for_hkl_with_individual_ub, with the
DIALS_ASSERT preconditions modelled as the option guard. -/
def for_hkl_with_individual_ub (env : StaticEnv) (hs : List Miller)
    (es : List Bool) (pas : List ℕ) (ubs : List Mat3Q) :
    Option PredData :=
  if ubs.length = hs.length ∧ ubs.length = pas.length ∧
      ubs.length = es.length ∧ 0 < env.oscStep then
    some (build_rows env emptyPred hs es pas ubs)
  else none

/-- ScanStaticReflectionPredictor::for_hkl: the same with one UB matrix
replicated for every request. -/
def for_hkl (env : StaticEnv) (hs : List Miller) (es : List Bool)
    (pas : List ℕ) (ub : Mat3Q) : Option PredData :=
  for_hkl_with_individual_ub env hs es pas (hs.map (fun _ => ub))

theorem build_rows_eq_pushRows (env : StaticEnv) :
    ∀ (hs : List Miller) (es : List Bool) (pas : List ℕ)
      (ubs : List Mat3Q) (p : PredData),
      build_rows env p hs es pas ubs = pushRows p (rowsFor env hs es pas ubs)
  | [], es, pas, ubs, p => by
    cases es <;> cases pas <;> cases ubs <;>
      simp [build_rows, rowsFor, pushRows]
  | h :: hs, [], pas, ubs, p => by
    cases pas <;> cases ubs <;> simp [build_rows, rowsFor, pushRows]
  | h :: hs, e :: es, [], ubs, p => by
    cases ubs <;> simp [build_rows, rowsFor, pushRows]
  | h :: hs, e :: es, pa :: pas, [], p => by
    simp [build_rows, rowsFor, pushRows]
  | h :: hs, e :: es, pa :: pas, ub :: ubs, p => by
    rw [build_rows, rowsFor, build_rows_eq_pushRows env hs es pas ubs,
      append_for_index_eq_pushRow]
    simp [pushRows, pushRow]

theorem rowsFor_length (env : StaticEnv) :
    ∀ (hs : List Miller) (es : List Bool) (pas : List ℕ)
      (ubs : List Mat3Q), es.length = hs.length → pas.length = hs.length →
      ubs.length = hs.length →
      (rowsFor env hs es pas ubs).length = hs.length
  | [], es, pas, ubs, _, _, _ => by
    cases es <;> cases pas <;> cases ubs <;> simp [rowsFor]
  | h :: hs, [], pas, ubs, h1, h2, h3 => by simp at h1
  | h :: hs, e :: es, [], ubs, h1, h2, h3 => by simp at h2
  | h :: hs, e :: es, pa :: pas, [], h1, h2, h3 => by simp at h3
  | h :: hs, e :: es, pa :: pas, ub :: ubs, h1, h2, h3 => by
    rw [rowsFor]
    simp only [List.length_cons]
    rw [rowsFor_length env hs es pas ubs (by simpa using h1)
      (by simpa using h2) (by simpa using h3)]

/-- Claim C9 as amended: for_hkl with matched request lengths and a
positive oscillation emits exactly one output row per requested
(h, entering, panel) triple; each row selects the first predicted ray
whose entering flag matches the request; when the requested panel rejects
that ray's s1, the row has zero x and y coordinates in xyzcal.mm and
xyzcal.px, the z components carrying the ray's rotation angle and the
fractional frame, and the Predicted flag unset. -/
theorem for_hkl_one_row_per_request (env : StaticEnv) (hs : List Miller)
    (es : List Bool) (pas : List ℕ) (ub : Mat3Q)
    (h1 : es.length = hs.length) (h2 : pas.length = hs.length)
    (h3 : 0 < env.oscStep) :
    for_hkl env hs es pas ub =
      some (pushRows emptyPred
        (rowsFor env hs es pas (hs.map (fun _ => ub)))) ∧
    (rowsFor env hs es pas (hs.map (fun _ => ub))).length = hs.length ∧
    (∀ h e pa ray,
      (env.predictRays h ub).find? (fun r => r.entering == e) = some ray →
      env.panelIntersect pa ray.s1 = none →
      rowFor env ub h e pa =
        ⟨h, e, pa, ray.s1, (0, 0, ray.angle),
         (0, 0, env.arrayIndexFromAngle ray.angle), 0⟩) := by
  refine ⟨?_, ?_, ?_⟩
  · unfold for_hkl for_hkl_with_individual_ub
    rw [if_pos ⟨by simp, by simp [h2], by simp [h1], h3⟩]
    rw [build_rows_eq_pushRows]
  · exact rowsFor_length env hs es pas _ h1 h2 (by simp)
  · intro h e pa ray hf hi
    unfold rowFor
    rw [hf]
    dsimp only
    rw [hi]

/-- A ray with a nonzero angle whose panel intersection fails. -/
def rayEx : Ray := ⟨(1, 2, 3), 1, true⟩

/-- An environment predicting one matching ray that every panel rejects. -/
def envEx : StaticEnv :=
  ⟨fun _ _ => [rayEx], fun _ _ => none, fun _ mm => mm, fun a => a + 5, 1⟩

/-- An environment predicting no rays at all. -/
def envNoRay : StaticEnv :=
  ⟨fun _ _ => [], fun _ _ => none, fun _ mm => mm, fun a => a + 5, 1⟩

/-- A concrete UB matrix. -/
def ubQ : Mat3Q := fun _ _ => 0

theorem for_hkl_one_row_per_request_witness :
    (([true] : List Bool).length =
        ([((1:ℤ), (1:ℤ), (1:ℤ))] : List Miller).length ∧
     ([0] : List ℕ).length = ([((1:ℤ), (1:ℤ), (1:ℤ))] : List Miller).length ∧
     (0:ℚ) < envEx.oscStep) ∧
    (for_hkl envEx [(1, 1, 1)] [true] [0] ubQ =
      some (pushRows emptyPred
        (rowsFor envEx [(1, 1, 1)] [true] [0]
          (([((1:ℤ), (1:ℤ), (1:ℤ))] : List Miller).map (fun _ => ubQ)))) ∧
     (rowsFor envEx [(1, 1, 1)] [true] [0]
        (([((1:ℤ), (1:ℤ), (1:ℤ))] : List Miller).map
          (fun _ => ubQ))).length =
        ([((1:ℤ), (1:ℤ), (1:ℤ))] : List Miller).length ∧
     (∀ h e pa ray,
       (envEx.predictRays h ubQ).find? (fun r => r.entering == e) =
          some ray →
       envEx.panelIntersect pa ray.s1 = none →
       rowFor envEx ubQ h e pa =
         ⟨h, e, pa, ray.s1, (0, 0, ray.angle),
          (0, 0, envEx.arrayIndexFromAngle ray.angle), 0⟩)) :=
  ⟨⟨rfl, rfl, by norm_num [envEx]⟩,
   for_hkl_one_row_per_request envEx [(1, 1, 1)] [true] [0] ubQ rfl rfl
     (by norm_num [envEx])⟩

/-- Claim C9 as stated is false at a concrete input: with one request
whose matching ray has rotation angle 1 and whose panel rejects the ray,
the emitted xyzcal.mm row is (0, 0, 1), not the zero triple (the z
component carries the angle), even though the Predicted flag is unset. -/
theorem for_hkl_zero_coordinates_fails :
    (for_hkl envEx [(1, 1, 1)] [true] [0] ubQ).map PredData.xyzMm =
      some [((0:ℚ), (0:ℚ), (1:ℚ))] ∧
    (for_hkl envEx [(1, 1, 1)] [true] [0] ubQ).map PredData.flags =
      some [0] ∧
    some [((0:ℚ), (0:ℚ), (1:ℚ))] ≠ some [((0:ℚ), (0:ℚ), (0:ℚ))] := by
  refine ⟨rfl, rfl, by simp⟩

/-- Claim C10: when no predicted ray carries the requested entering flag
the emitted row is all zero (s1, xyzcal.mm, xyzcal.px) with flags 0,
whereas in the panel-rejection case the z components of xyzcal.mm and
xyzcal.px still carry the ray's rotation angle and fractional frame. -/
theorem append_for_index_no_ray_vs_rejection (env : StaticEnv)
    (p : PredData) (ub : Mat3Q) (h : Miller) (e : Bool) (pa : ℕ) :
    ((env.predictRays h ub).find? (fun r => r.entering == e) = none →
      append_for_index env p ub h e pa =
        pushRow p ⟨h, e, pa, (0, 0, 0), (0, 0, 0), (0, 0, 0), 0⟩) ∧
    (∀ ray, (env.predictRays h ub).find? (fun r => r.entering == e) =
        some ray →
      env.panelIntersect pa ray.s1 = none →
      append_for_index env p ub h e pa =
        pushRow p ⟨h, e, pa, ray.s1, (0, 0, ray.angle),
          (0, 0, env.arrayIndexFromAngle ray.angle), 0⟩) := by
  constructor
  · intro hf
    rw [append_for_index_eq_pushRow]
    unfold rowFor
    rw [hf]
  · intro ray hf hi
    rw [append_for_index_eq_pushRow]
    unfold rowFor
    rw [hf]
    dsimp only
    rw [hi]

theorem append_for_index_no_ray_vs_rejection_witness :
    ((envNoRay.predictRays (1, 1, 1) ubQ).find?
        (fun r => r.entering == true) = none ∧
     append_for_index envNoRay emptyPred ubQ (1, 1, 1) true 0 =
       pushRow emptyPred
         ⟨(1, 1, 1), true, 0, (0, 0, 0), (0, 0, 0), (0, 0, 0), 0⟩) ∧
    ((envEx.predictRays (1, 1, 1) ubQ).find?
        (fun r => r.entering == true) = some rayEx ∧
     envEx.panelIntersect 0 rayEx.s1 = none ∧
     append_for_index envEx emptyPred ubQ (1, 1, 1) true 0 =
       pushRow emptyPred
         ⟨(1, 1, 1), true, 0, rayEx.s1, (0, 0, rayEx.angle),
          (0, 0, envEx.arrayIndexFromAngle rayEx.angle), 0⟩) :=
  ⟨⟨rfl, (append_for_index_no_ray_vs_rejection envNoRay emptyPred ubQ
      (1, 1, 1) true 0).1 rfl⟩,
   ⟨rfl, rfl, (append_for_index_no_ray_vs_rejection envEx emptyPred ubQ
      (1, 1, 1) true 0).2 rayEx rfl rfl⟩⟩

/-! ## The scan varying predictor (claim C8) -/

/-- 3x3 rational matrix product (premultiplication by a rotation). -/
def matMulQ (a b : Mat3Q) : Mat3Q := fun i j =>
  a i 0 * b 0 j + a i 1 * b 1 j + a i 2 * b 2 j

/-- Modelled from the spec: the scan, goniometer and beam collaborators
of ScanVaryingReflectionPredictor::for_ub (image range of numImages
frames starting at frameStart, frame-to-angle map, axis-angle rotation
matrix, rotation axis and beam vector), together with the dmin and
margin fields. -/
structure VaryEnv where
  numImages : ℕ
  frameStart : ℤ
  angleOf : ℤ → ℚ
  rot : ℚ → Mat3Q
  axis : ℚ × ℚ × ℚ
  s0 : ℚ × ℚ × ℚ
  dmin : ℚ
  margin : ℕ

/-- One argument of a ReekeIndexGenerator constructor call. -/
inductive GenArg where
  | ub (m : Mat3Q)
  | sg
  | vec (v : ℚ × ℚ × ℚ)
  | flt (x : ℚ)
  | int (n : ℕ)
deriving DecidableEq

/-- The argument list of the constructor call written in
ScanVaryingReflectionPredictor::append_for_image:
ReekeIndexGenerator(A1, A2, space_group_type_, m2, s0, dmin_, margin_),
seven arguments including the space group type. -/
def reeke_call_args (env : VaryEnv) (A1 A2 : Mat3Q) : List GenArg :=
  [.ub A1, .ub A2, .sg, .vec env.axis, .vec env.s0, .flt env.dmin,
   .int env.margin]

/-- The claim C8 reading of the same call: exactly the six arguments
(A1, A2, axis, s0, dmin, margin), matching the only constructor declared
in reeke_index_generator.h. -/
def reeke_claimed_args (env : VaryEnv) (A1 A2 : Mat3Q) : List GenArg :=
  [.ub A1, .ub A2, .vec env.axis, .vec env.s0, .flt env.dmin,
   .int env.margin]

/-- The begin setting matrix used for frame f: the rotation at angle(f)
premultiplying A[f - offset]. -/
def A1of (env : VaryEnv) (A : List Mat3Q) (f : ℤ) : Mat3Q :=
  matMulQ (env.rot (env.angleOf f))
    (A.getD (f - env.frameStart).toNat (fun _ _ => 0))

/-- The end setting matrix used for frame f: the rotation at angle(f+1)
premultiplying A[f + 1 - offset]. -/
def A2of (env : VaryEnv) (A : List Mat3Q) (f : ℤ) : Mat3Q :=
  matMulQ (env.rot (env.angleOf (f + 1)))
    (A.getD (f - env.frameStart + 1).toNat (fun _ _ => 0))

/-- The frames of the scan, [frameStart, frameStart + numImages). -/
def scanFrames (env : VaryEnv) : List ℤ :=
  (List.range env.numImages).map (fun k => env.frameStart + k)

/-- ScanVaryingReflectionPredictor::for_ub, abstracted to the sequence of
ReekeIndexGenerator constructor calls it makes: the DIALS_ASSERT on the
length of A is the option guard, and for each frame the setting matrices
are the rotated A[f - offset] and A[f + 1 - offset]. -/
def for_ub_generator_calls (env : VaryEnv) (A : List Mat3Q) :
    Option (List (ℤ × List GenArg)) :=
  if A.length = env.numImages + 1 then
    some ((scanFrames env).map (fun f =>
      (f, reeke_call_args env (A1of env A f) (A2of env A f))))
  else none

/-- Claim C8, code side: for_ub fails its precondition exactly when the
matrix array does not have numImages + 1 entries; and the generator
constructor call written in the source passes the space group type as a
third argument, so it never coincides with the six-argument call
(A1, A2, axis, s0, dmin, margin) stated by the claim (and accepted by the
only constructor of ReekeIndexGenerator). -/
theorem scan_varying_for_ub_args (env : VaryEnv) (A : List Mat3Q) :
    (for_ub_generator_calls env A = none ↔
      A.length ≠ env.numImages + 1) ∧
    (∀ A1 A2 : Mat3Q,
      reeke_call_args env A1 A2 ≠ reeke_claimed_args env A1 A2) := by
  constructor
  · unfold for_ub_generator_calls
    split_ifs with hlen
    · simp [hlen]
    · simp [hlen]
  · intro A1 A2 hcontra
    have hlen := congrArg List.length hcontra
    simp [reeke_call_args, reeke_claimed_args] at hlen

end ReflectionPredictor

end Dials
